import Mathlib

/-!
# blob2c: a shallow embedding of `blob2c.c`

The program reads a file into memory and writes a C array declaration holding
one `0xHH, ` literal per byte, eight per line, followed by a size constant.

Modelling conventions.

* A C string is the Lean `String` of its characters before the terminating NUL.
* A byte in memory is a `Nat`; the conversion to `unsigned char` is `% 256`.
* `off_t`, `size_t`, `ssize_t` and `unsigned long` are 64 bits wide (LP64).
* The results of the system and library calls (`getopt`, `stat`, `malloc`,
  `open`, `read`) are inputs of the model, collected in `World`.
* Standard output and standard error are the lists of the texts written by the
  successive `fprintf` calls.
-/

namespace Blob2c

/-! ## Constants -/

/-- The macro `BASENAME_PREFIX`. -/
def BASENAME_PREFIX : String := "_blob_"

/-- The macro `LINE_LEN`. -/
def LINE_LEN : Nat := 8

/-- The macro `PER_BYTE`: the length of `0xYY, `. -/
def PER_BYTE : Nat := 6

/-- The value of `EXIT_FAILURE`, a macro of the header `stdlib.h` of the C library: 1, its
value on POSIX systems. -/
def EXIT_FAILURE : Int := 1

/-- The table `_hex_chars`. -/
def _hex_chars : List Char := "0123456789ABCDEF".data

/-- The terminating character of a C string. -/
def NUL : Char := Char.ofNat 0

/-! ## Machine integers -/

/-- Conversion of a signed value to `size_t` (and to `unsigned long`). -/
def toSizeT (x : Int) : Nat := (x % 2 ^ 64).toNat

/-- Conversion of a `size_t` to `ssize_t`. -/
def toSsizeT (n : Nat) : Int :=
  if n % 2 ^ 64 < 2 ^ 63 then ((n % 2 ^ 64 : Nat) : Int) else ((n % 2 ^ 64 : Nat) : Int) - 2 ^ 64

/-- The conversion `%lu` of `fprintf`: the argument as an unsigned long, in decimal. -/
def fmt_lu (x : Int) : String := String.mk (Nat.toDigits 10 (toSizeT x))

/-! ## The environment -/

/-- The results of the calls the program makes into the system. -/
structure World where
  /-- Result of `stat(filename, &st)`: `some st_size` when it returns 0. -/
  stat : Option Int
  /-- Whether `malloc(size)` returns a block. -/
  malloc_buf : Bool
  /-- The indeterminate contents of the block returned by `malloc(size)`. -/
  heap : Nat → Nat
  /-- The descriptor returned by `open(filename, O_RDONLY)`. -/
  open_fd : Int
  /-- Result of `read(fd, buf, len)`: `none` for -1, else the bytes stored at the
  start of `buf`, whose number is the value returned. -/
  read : Option (List Nat)
  /-- Whether the `malloc` of the derived identifier returns a block. -/
  malloc_basename : Bool
  /-- The indeterminate initial contents of the automatic array `line_buf`. -/
  stack : Nat → Char
  /-- The diagnostic that `getopt` itself writes to standard error when it returns `?`
  (an option that is not in `s:t:p:b:`, or a missing option argument): `opterr` is
  left at 1 and the option string has no leading colon. -/
  getopt_err : String

/-- The two output streams and the exit status of a finished run. -/
structure Outcome where
  status : Int
  stdout : List String
  stderr : List String

/-- The whole text written to standard output. -/
def Outcome.text (o : Outcome) : String := String.join o.stdout

/-! ## The functions of `blob2c.c` -/

/-- The function `fsize`: size of the file, or -1 on error. -/
def fsize (st : Option Int) : Int :=
  match st with
  | some st_size => st_size
  | none => -1

/-- The value `read` returns. -/
def readResult (r : Option (List Nat)) : Int :=
  match r with
  | some d => (d.length : Int)
  | none => -1

/-- The buffer after `read` has stored its bytes at the start of it. -/
def readInto (buf : List Nat) (r : Option (List Nat)) : List Nat :=
  match r with
  | some d => d.take buf.length ++ buf.drop d.length
  | none => buf

/-- The function `from_file`: the value returned and the buffer afterwards. -/
def from_file (w : World) (buf : List Nat) (len : Nat) : Int × List Nat :=
  let fd := w.open_fd
  if fd > 0 then
    let res := readResult w.read
    (if res = toSsizeT len then 1 else 0, readInto buf w.read)
  else
    (fd, buf)

/-- The function `die`: print msg to stderr, then exit with error code 1. -/
def die (out err : List String) (msg : String) : Outcome :=
  { status := 1, stdout := out, stderr := err ++ [msg] }

/-- The library function `strchr` on the string `s`, searching from offset `start`:
the offset of the first occurrence of `c`, or `none` for a null pointer (`c` is not
the terminating NUL). -/
def strchr (s : List Char) (start : Nat) (c : Char) : Option Nat :=
  let i := (s.drop start).indexOf c
  if i < (s.drop start).length then some (start + i) else none

/-- The loop of `strchrreplace`, `cur` being `current_pos`. -/
def strchrreplaceLoop (find replace : Char) (s : List Char) (cur : Option Nat) : List Char :=
  match cur with
  | none => s
  | some p =>
    strchrreplaceLoop find replace (s.set p replace) (strchr (s.set p replace) (p + 1) find)
termination_by (match cur with | none => 0 | some p => s.length - p + 1)
decreasing_by
  cases hq : strchr (s.set p replace) (p + 1) find with
  | none => simp
  | some q =>
    unfold strchr at hq
    simp only [List.length_drop, List.length_set] at hq
    split at hq
    · simp only [Option.some.injEq] at hq
      simp only [List.length_set]
      omega
    · simp at hq

/-- The function `strchrreplace`. -/
def strchrreplace (str : String) (find replace : Char) : String :=
  String.mk (strchrreplaceLoop find replace str.data (strchr str.data 0 find))

/-- Storing the characters `cs` into the array `a` from offset `off` on. -/
def writeAt (a : List Char) (off : Nat) : List Char → List Char
  | [] => a
  | c :: cs => writeAt (a.set off c) (off + 1) cs

/-- The call `sprintf(byte_pos, "0x%c%c, ", hi, lo)` with `byte_pos = &line_buf[off]`. -/
def sprintf_byte (line_buf : List Char) (off : Nat) (hi lo : Char) : List Char :=
  writeAt line_buf off ['0', 'x', hi, lo, ',', ' ', NUL]

/-- The `for` loop of `main` that fills `line_buf`; returns `pos` and `line_buf`. -/
def forLoop (buf : List Nat) (line_len : Nat) (i pos : Nat) (line_buf : List Char) :
    Nat × List Char :=
  if i < line_len then
    let byte := buf.getD pos 0 % 256
    forLoop buf line_len (i + 1) (pos + 1)
      (sprintf_byte line_buf (i * PER_BYTE) (_hex_chars.getD (byte >>> 4) NUL)
        (_hex_chars.getD (byte &&& 0x0F) NUL))
  else
    (pos, line_buf)
termination_by line_len - i

/-- The text of `fprintf(stdout, "    %.*s\n", n, line_buf)`. -/
def fprintf_line (n : Nat) (line_buf : List Char) : String :=
  "    " ++ String.mk ((line_buf.take n).takeWhile (fun c => c != NUL)) ++ "\n"

/-- The variables of the `while` loop of `main`. -/
structure LoopState where
  left : Nat
  pos : Nat
  line_buf : List Char
  out : List String

/-- The `while (left)` loop of `main`. -/
def whileLoop (buf : List Nat) (s : LoopState) : LoopState :=
  if _h : s.left ≠ 0 then
    let line_len := if s.left > LINE_LEN then LINE_LEN else s.left
    let r := forLoop buf line_len 0 s.pos s.line_buf
    whileLoop buf
      { left := s.left - line_len
        pos := r.1
        line_buf := r.2
        out := s.out ++ [fprintf_line (line_len * PER_BYTE) r.2] }
  else
    s
termination_by s.left
decreasing_by
  simp only [LINE_LEN]
  split <;> omega

/-- The option variables of `main`, with their initial values. -/
structure Config where
  basename : Option String := none
  type : String := "const char"
  sizetype : String := "size_t"
  prefix_ : String := "#include <stddef.h>\n"

/-- The `getopt` loop of `main` over the successive results `(opt, optarg)` of
`getopt(argc, argv, "s:t:p:b:")`; `none` when the `default` case is reached. -/
def parseOpts : List (Char × String) → Config → Option Config
  | [], c => some c
  | (opt, optarg) :: rest, c =>
    if opt = 's' then parseOpts rest { c with sizetype := optarg }
    else if opt = 't' then parseOpts rest { c with type := optarg }
    else if opt = 'p' then parseOpts rest { c with prefix_ := optarg }
    else if opt = 'b' then parseOpts rest { c with basename := some optarg }
    else none

/-- The identifier `main` builds from the file name when none is given. -/
def deriveBasename (filename : String) : String :=
  strchrreplace (strchrreplace (BASENAME_PREFIX ++ filename) '/' '_') '.' '_'

/-- The usage text of the `default` case. -/
def usage (argv0 : String) : String :=
  "Usage: " ++ argv0 ++ " [-t type] [-s sizetype] [-p prefix] [-b basename] filename\n"

/-- The output part of `main`, from the first `fprintf(stdout, ...)` on. -/
def emit (c : Config) (basename : String) (size : Int) (buf : List Nat)
    (line_buf : List Char) (out err : List String) : Outcome :=
  let left := toSizeT size
  let out := out ++ [c.prefix_ ++ "\n"]
  let out := out ++ [c.type ++ " " ++ basename ++ "_data[] = \x7b\n"]
  let s := whileLoop buf { left := left, pos := 0, line_buf := line_buf, out := out }
  let out := s.out ++ ["\x7d;\n\n"]
  let out := out ++ ["const " ++ c.sizetype ++ " " ++ basename ++ "_size = " ++ fmt_lu size ++ ";\n"]
  { status := 0, stdout := out, stderr := err }

/-- The function `main`. `argv0` is `argv[0]`, `opts` the results of the `getopt`
calls and `operands` the arguments from `argv[optind]` on. A result outside `s`, `t`,
`p`, `b` is the `?` of `getopt`, which has then written `w.getopt_err` to standard
error before `main` prints the usage text. -/
def main (argv0 : String) (opts : List (Char × String)) (operands : List String)
    (w : World) : Outcome :=
  let out : List String := []
  let err : List String := []
  match parseOpts opts {} with
  | none =>
    { status := EXIT_FAILURE, stdout := out, stderr := err ++ [w.getopt_err] ++ [usage argv0] }
  | some c =>
    match operands with
    | [] => die out err "missing filename argument\n"
    | filename :: _ =>
      let size := fsize w.stat
      if size < 0 then die out err "error stat'ing, does the file exist?\n"
      else if w.malloc_buf = false then die out err "cannot allocate memory\n"
      else
        let buf := (List.range (toSizeT size)).map w.heap
        let r := from_file w buf (toSizeT size)
        if r.1 < 0 then die out err "cannot read file\n"
        else
          let line_buf := (List.range (LINE_LEN * PER_BYTE + 1)).map w.stack
          match c.basename with
          | some basename => emit c basename size r.2 line_buf out err
          | none =>
            if w.malloc_basename = false then die out err "cannot allocate memory\n"
            else emit c (deriveBasename filename) size r.2 line_buf out err

/-! ## The output format, stated on the bytes, and the worlds used as examples -/

/-- The text `0xHH, ` of one byte: the digit of `v / 16`, then the digit of `v % 16`. -/
def hexLit (v : Nat) : List Char :=
  ['0', 'x', _hex_chars.getD (v % 256 / 16) NUL, _hex_chars.getD (v % 256 % 16) NUL, ',', ' ']

/-- One line of the array body: four spaces, the literals of the bytes, a newline. -/
def renderLine (chunk : List Nat) : String :=
  "    " ++ String.mk (chunk.map hexLit).flatten ++ "\n"

/-- The lines of the array body of the bytes `b`: one per window of 8 bytes. -/
def bodyLines (b : List Nat) : List String :=
  (List.range ((b.length + 7) / 8)).map (fun j => renderLine ((b.drop (8 * j)).take 8))

/-- The file holds the bytes `b`, and `stat`, `malloc`, `open` and `read` succeed on it. -/
def World.Reads (w : World) (b : List Nat) : Prop :=
  w.stat = some (b.length : Int) ∧ b.length < 2 ^ 63 ∧ w.malloc_buf = true ∧
    0 < w.open_fd ∧ w.read = some b

/-- The identifier of the generated symbols: the one given with `-b`, else the derived one. -/
def identifier (c : Config) (filename : String) : String :=
  match c.basename with
  | some basename => basename
  | none => deriveBasename filename

/-- The line that opens the array declaration. -/
def declLine (c : Config) (ident : String) : String :=
  c.type ++ " " ++ ident ++ "_data[] = \x7b\n"

/-- The line that declares the size constant, `n` being the number printed. -/
def sizeLine (c : Config) (ident : String) (n : Nat) : String :=
  "const " ++ c.sizetype ++ " " ++ ident ++ "_size = " ++ String.mk (Nat.toDigits 10 n) ++ ";\n"

/-- The writes of a run between the array declaration line and the closing line. -/
def Outcome.body (o : Outcome) : List String :=
  ((o.stdout.drop 2).dropLast).dropLast

/-- The value of a hexadecimal digit `0`..`9`, `A`..`F`. -/
def hexVal (c : Char) : Option Nat :=
  if '0'.toNat ≤ c.toNat ∧ c.toNat ≤ '9'.toNat then some (c.toNat - '0'.toNat)
  else if 'A'.toNat ≤ c.toNat ∧ c.toNat ≤ 'F'.toNat then some (c.toNat - 'A'.toNat + 10)
  else none

/-- Reading an array body back: the indentation and the newlines are skipped, and each
`0xHH, ` gives the base-16 number `HH`; `none` when the text has another shape. -/
def decodeBody : List Char → Option (List Nat)
  | [] => some []
  | ' ' :: ' ' :: ' ' :: ' ' :: rest => decodeBody rest
  | '\n' :: rest => decodeBody rest
  | '0' :: 'x' :: h :: l :: ',' :: ' ' :: rest =>
    match hexVal h, hexVal l, decodeBody rest with
    | some hv, some lv, some r => some ((16 * hv + lv) :: r)
    | _, _, _ => none
  | _ => none

/-- The replacement of one character by `strchrreplace`. -/
def replaceChar (find replace : Char) (c : Char) : Char :=
  if c = find then replace else c

/-- The character map of the identifier derivation: `/` and `.` become `_`. -/
def identChar (c : Char) : Char :=
  if c = '/' ∨ c = '.' then '_' else c

/-- Reading a decimal numeral. -/
def readDecimal (cs : List Char) : Nat :=
  cs.foldl (fun a c => 10 * a + (c.toNat - '0'.toNat)) 0

/-- A world in which the file holds the bytes `b` and is read in full: `stat` gives its
length, both allocations succeed, `open` returns the descriptor 3 and `read` stores `b`. -/
def World.ofFile (b : List Nat) : World :=
  { stat := some (b.length : Int)
    malloc_buf := true
    heap := fun _ => 0xAA
    open_fd := 3
    read := some b
    malloc_basename := true
    stack := fun _ => 'Z'
    getopt_err := "blob2c: invalid option -- 'x'\n" }

/-- A world in which `stat` reports 4 bytes, `open` succeeds and `read` stores only the
2 bytes `01 02` (a short read: the file shrank after the `stat` call). -/
def World.shortRead : World :=
  { stat := some 4
    malloc_buf := true
    heap := fun _ => 0xAA
    open_fd := 3
    read := some [1, 2]
    malloc_basename := true
    stack := fun _ => 'Z'
    getopt_err := "blob2c: invalid option -- 'x'\n" }

/-- A world in which `stat` reports 4 bytes, `open` succeeds and `read` fails with -1
(as it does when the path names a directory). -/
def World.readError : World :=
  { stat := some 4
    malloc_buf := true
    heap := fun _ => 0xAA
    open_fd := 3
    read := none
    malloc_basename := true
    stack := fun _ => 'Z'
    getopt_err := "blob2c: invalid option -- 'x'\n" }

/-! ## The loop body and the loops with checked accesses -/

/-- The value given to `line_len` in an iteration of the `while` loop of `main` that is
entered with the value `left`. -/
def line_len_of (left : Nat) : Nat :=
  if left > LINE_LEN then LINE_LEN else left

/-- One execution of the body of the `while` loop of `main`. -/
def loopBody (buf : List Nat) (s : LoopState) : LoopState :=
  let line_len := if s.left > LINE_LEN then LINE_LEN else s.left
  let r := forLoop buf line_len 0 s.pos s.line_buf
  { left := s.left - line_len
    pos := r.1
    line_buf := r.2
    out := s.out ++ [fprintf_line (line_len * PER_BYTE) r.2] }

/-- The `for` loop of `main` with every array access checked: `none` as soon as the
read `buf[pos]`, an index into `_hex_chars` or a byte stored by `sprintf` (six
characters and the terminating NUL, from offset `i * PER_BYTE` of `line_buf`) falls
outside its array. -/
def forLoopChecked (buf : List Nat) (line_len : Nat) (i pos : Nat) (line_buf : List Char) :
    Option (Nat × List Char) :=
  if i < line_len then
    if pos < buf.length then
      let byte := buf.getD pos 0 % 256
      if byte >>> 4 < _hex_chars.length ∧ byte &&& 0x0F < _hex_chars.length then
        if i * PER_BYTE + 7 ≤ line_buf.length then
          forLoopChecked buf line_len (i + 1) (pos + 1)
            (sprintf_byte line_buf (i * PER_BYTE) (_hex_chars.getD (byte >>> 4) NUL)
              (_hex_chars.getD (byte &&& 0x0F) NUL))
        else none
      else none
    else none
  else
    some (pos, line_buf)
termination_by line_len - i

/-- The `while` loop of `main` with every array access checked, the characters that
`fprintf` takes from `line_buf` included. -/
def whileLoopChecked (buf : List Nat) (s : LoopState) : Option LoopState :=
  if _h : s.left ≠ 0 then
    let line_len := if s.left > LINE_LEN then LINE_LEN else s.left
    match forLoopChecked buf line_len 0 s.pos s.line_buf with
    | none => none
    | some r =>
      if line_len * PER_BYTE ≤ r.2.length then
        whileLoopChecked buf
          { left := s.left - line_len
            pos := r.1
            line_buf := r.2
            out := s.out ++ [fprintf_line (line_len * PER_BYTE) r.2] }
      else none
  else
    some s
termination_by s.left
decreasing_by
  simp only [LINE_LEN]
  split <;> omega

/-! ## Lemmas on the loops -/

theorem writeAt_eq (cs : List Char) : ∀ (a : List Char) (off : Nat),
    off + cs.length ≤ a.length → writeAt a off cs = a.take off ++ cs ++ a.drop (off + cs.length) := by
  induction cs with
  | nil => intro a off _; simp [writeAt]
  | cons c cs ih =>
    intro a off h
    simp only [List.length_cons] at h
    rw [writeAt, ih _ _ (by simp only [List.length_set]; omega)]
    rw [List.set_eq_take_append_cons_drop, if_pos (by omega)]
    have h1 : List.take (off + 1) (List.take off a ++ c :: List.drop (off + 1) a)
        = List.take off a ++ [c] := by
      rw [List.take_append_eq_append_take]
      simp only [List.length_take]
      have : min off a.length = off := by omega
      rw [this]
      simp
    have h2 : List.drop (off + 1 + cs.length) (List.take off a ++ c :: List.drop (off + 1) a)
        = List.drop (off + (cs.length + 1)) a := by
      rw [List.drop_append_eq_append_drop]
      simp only [List.length_take]
      have e1 : min off a.length = off := by omega
      rw [e1, List.drop_of_length_le (by simp; omega)]
      have e2 : off + 1 + cs.length - off = cs.length + 1 := by omega
      rw [e2]
      simp only [List.nil_append, List.drop_succ_cons, List.drop_drop]
      congr 1
      omega
    rw [h1, h2]
    simp [List.length_cons]

theorem hex_shift (v : Nat) : (v % 256) >>> 4 = v % 256 / 16 := by
  rw [Nat.shiftRight_eq_div_pow]

theorem hex_mask (v : Nat) : (v % 256) &&& 0x0F = v % 256 % 16 :=
  Nat.and_pow_two_sub_one_eq_mod (v % 256) 4

theorem sprintf_byte_eq (lb : List Char) (i : Nat) (v : Nat) (h : i * 6 + 7 ≤ lb.length) :
    sprintf_byte lb (i * PER_BYTE) (_hex_chars.getD ((v % 256) >>> 4) NUL)
        (_hex_chars.getD ((v % 256) &&& 0x0F) NUL)
      = lb.take (i * 6) ++ hexLit v ++ NUL :: lb.drop (i * 6 + 7) := by
  rw [hex_shift, hex_mask, sprintf_byte, writeAt_eq _ _ _ (by simp [PER_BYTE]; omega)]
  simp [hexLit, PER_BYTE]

theorem hexLit_length (v : Nat) : (hexLit v).length = 6 := rfl

theorem forLoop_spec (buf : List Nat) (n : Nat) : ∀ (d i pos : Nat) (lb : List Char),
    n - i = d → i ≤ n → n ≤ 8 → lb.length = 49 → pos + (n - i) ≤ buf.length →
    (forLoop buf n i pos lb).1 = pos + (n - i) ∧ (forLoop buf n i pos lb).2.length = 49 ∧
    (forLoop buf n i pos lb).2.take (n * 6)
      = lb.take (i * 6) ++ (((buf.drop pos).take (n - i)).map hexLit).flatten := by
  intro d
  induction d with
  | zero =>
    intro i pos lb hd hi hn hlb hpos
    have hin : i = n := by omega
    subst hin
    rw [forLoop, if_neg (by omega)]
    simp [hlb]
  | succ d ih =>
    intro i pos lb hd hi hn hlb hpos
    have hlt : i < n := by omega
    have hp : pos < buf.length := by omega
    rw [forLoop, if_pos hlt]
    simp only []
    rw [sprintf_byte_eq lb i (buf.getD pos 0) (by omega)]
    have hlen : (lb.take (i * 6) ++ hexLit (buf.getD pos 0) ++ NUL :: lb.drop (i * 6 + 7)).length
        = 49 := by
      simp only [List.length_append, List.length_take, List.length_cons, List.length_drop,
        hexLit_length]
      omega
    obtain ⟨h1, h2, h3⟩ := ih (i + 1) (pos + 1) _ (by omega) (by omega) hn hlen (by omega)
    refine ⟨by rw [h1]; omega, h2, ?_⟩
    rw [h3]
    have ht : List.take ((i + 1) * 6)
        (lb.take (i * 6) ++ hexLit (buf.getD pos 0) ++ NUL :: lb.drop (i * 6 + 7))
        = lb.take (i * 6) ++ hexLit (buf.getD pos 0) := by
      apply List.take_left'
      simp only [List.length_append, List.length_take, hexLit_length]
      omega
    have hdrop : (buf.drop pos).take (n - i)
        = buf.getD pos 0 :: (buf.drop (pos + 1)).take (n - (i + 1)) := by
      rw [List.drop_eq_getElem_cons hp, List.getD_eq_getElem _ _ hp]
      have : n - i = (n - (i + 1)) + 1 := by omega
      rw [this, List.take_succ_cons]
    rw [ht, hdrop]
    simp

theorem hexdigit_mem : ∀ k, k < 16 → _hex_chars.getD k NUL ∈ _hex_chars := by decide

theorem hex_chars_ne_NUL : ∀ c ∈ _hex_chars, c ≠ NUL := by decide

theorem hexLit_ne_NUL (v : Nat) : ∀ c ∈ hexLit v, (c != NUL) = true := by
  have h1 := hex_chars_ne_NUL _ (hexdigit_mem (v % 256 / 16) (by omega))
  have h2 := hex_chars_ne_NUL _ (hexdigit_mem (v % 256 % 16) (by omega))
  intro c hc
  simp only [hexLit, List.mem_cons, List.mem_singleton, List.not_mem_nil, or_false] at hc
  rcases hc with rfl | rfl | rfl | rfl | rfl | rfl
  · decide
  · decide
  · simpa using h1
  · simpa using h2
  · decide
  · decide

theorem fprintf_line_eq (n : Nat) (lb : List Char) (chunk : List Nat)
    (h : lb.take (n * 6) = (chunk.map hexLit).flatten) :
    fprintf_line (n * PER_BYTE) lb = renderLine chunk := by
  unfold fprintf_line renderLine
  have hp : n * PER_BYTE = n * 6 := rfl
  rw [hp, h]
  congr 3
  rw [List.takeWhile_eq_self_iff]
  intro c hc
  simp only [List.mem_flatten, List.mem_map] at hc
  obtain ⟨l, ⟨v, _, rfl⟩, hc⟩ := hc
  exact hexLit_ne_NUL v c hc

theorem bodyLines_nil : bodyLines [] = [] := rfl

theorem bodyLines_unfold (b : List Nat) (h : b ≠ []) :
    bodyLines b = renderLine (b.take 8) :: bodyLines (b.drop 8) := by
  have hl : 0 < b.length := List.length_pos.mpr h
  unfold bodyLines
  have e : (b.length + 7) / 8 = ((b.drop 8).length + 7) / 8 + 1 := by
    simp only [List.length_drop]
    omega
  rw [e, List.range_succ_eq_map]
  simp only [List.map_cons, List.map_map, Nat.mul_zero, List.drop_zero]
  congr 1
  apply List.map_congr_left
  intro j _
  simp only [Function.comp, List.drop_drop]
  congr 3
  simp only [Nat.succ_eq_add_one]
  omega

theorem whileLoop_spec (buf : List Nat) : ∀ (m : Nat) (s : LoopState),
    s.left ≤ m → s.line_buf.length = 49 → s.pos + s.left = buf.length →
    (whileLoop buf s).out = s.out ++ bodyLines (buf.drop s.pos) ∧
    (whileLoop buf s).left = 0 ∧ (whileLoop buf s).pos = buf.length := by
  intro m
  induction m with
  | zero =>
    intro s hm hlb hinv
    have h0 : s.left = 0 := by omega
    rw [whileLoop, dif_neg (by simp [h0])]
    have : buf.drop s.pos = [] := List.drop_of_length_le (by omega)
    rw [this, bodyLines_nil]
    exact ⟨by simp, h0, by omega⟩
  | succ m ih =>
    intro s hm hlb hinv
    by_cases h0 : s.left = 0
    · rw [whileLoop, dif_neg (by simp [h0])]
      have : buf.drop s.pos = [] := List.drop_of_length_le (by omega)
      rw [this, bodyLines_nil]
      exact ⟨by simp, h0, by omega⟩
    · rw [whileLoop, dif_pos h0]
      simp only []
      have hll : (if s.left > LINE_LEN then LINE_LEN else s.left) = min s.left 8 := by
        simp only [LINE_LEN]
        split <;> omega
      rw [hll]
      obtain ⟨f1, f2, f3⟩ := forLoop_spec buf (min s.left 8) (min s.left 8) 0 s.pos s.line_buf
        (by omega) (by omega) (by omega) hlb (by omega)
      obtain ⟨g1, g2, g3⟩ := ih
        { left := s.left - min s.left 8
          pos := (forLoop buf (min s.left 8) 0 s.pos s.line_buf).1
          line_buf := (forLoop buf (min s.left 8) 0 s.pos s.line_buf).2
          out := s.out ++ [fprintf_line (min s.left 8 * PER_BYTE)
            (forLoop buf (min s.left 8) 0 s.pos s.line_buf).2] }
        (by simp only; omega) f2 (by simp only; rw [f1]; omega)
      refine ⟨?_, g2, g3⟩
      rw [g1]
      simp only [f1, Nat.sub_zero]
      have hne : buf.drop s.pos ≠ [] := by
        intro hnil
        have := congrArg List.length hnil
        simp only [List.length_drop, List.length_nil] at this
        omega
      rw [bodyLines_unfold _ hne]
      have hchunk : fprintf_line (min s.left 8 * PER_BYTE)
          (forLoop buf (min s.left 8) 0 s.pos s.line_buf).2
          = renderLine ((buf.drop s.pos).take 8) := by
        apply fprintf_line_eq
        rw [f3]
        simp only [Nat.zero_mul, List.take_zero, List.nil_append, Nat.sub_zero]
        congr 2
        rcases Nat.lt_or_ge s.left 8 with h8 | h8
        · rw [List.take_of_length_le (by simp only [List.length_drop]; omega),
            List.take_of_length_le (by simp only [List.length_drop]; omega)]
        · rw [Nat.min_eq_right h8]
      have hd : List.drop 8 (List.drop s.pos buf) = List.drop (s.pos + min s.left 8) buf := by
        rcases Nat.lt_or_ge s.left 8 with h8 | h8
        · rw [List.drop_of_length_le (by simp only [List.length_drop]; omega),
            List.drop_of_length_le (by omega)]
        · rw [Nat.min_eq_right h8, List.drop_drop]
      rw [hchunk, hd]
      simp

theorem toSizeT_natCast (n : Nat) (h : n < 2 ^ 63) : toSizeT (n : Int) = n := by
  unfold toSizeT
  rw [Int.emod_eq_of_lt (by omega) (by omega)]
  simp

theorem toSsizeT_of_lt (n : Nat) (h : n < 2 ^ 63) : toSsizeT n = (n : Int) := by
  unfold toSsizeT
  have : n % 2 ^ 64 = n := Nat.mod_eq_of_lt (by omega)
  rw [this, if_pos h]

theorem emit_spec (c : Config) (ident : String) (b : List Nat) (lb : List Char)
    (out err : List String) (hb : b.length < 2 ^ 63) (hlb : lb.length = 49) :
    emit c ident (b.length : Int) b lb out err
      = { status := 0
          stdout := out ++ [c.prefix_ ++ "\n", declLine c ident] ++ bodyLines b
            ++ ["\x7d;\n\n", sizeLine c ident b.length]
          stderr := err } := by
  unfold emit
  simp only [toSizeT_natCast _ hb]
  obtain ⟨h1, _, _⟩ := whileLoop_spec b b.length
    { left := b.length, pos := 0, line_buf := lb
      out := out ++ [c.prefix_ ++ "\n"] ++ [c.type ++ " " ++ ident ++ "_data[] = \x7b\n"] }
    (Nat.le_refl _) hlb (by simp)
  rw [h1]
  simp [declLine, sizeLine, fmt_lu, toSizeT_natCast _ hb]

theorem readInto_fresh (b : List Nat) (heap : Nat → Nat) :
    readInto ((List.range b.length).map heap) (some b) = b := by
  simp [readInto]

theorem from_file_length (w : World) (buf : List Nat) (len : Nat) :
    (from_file w buf len).2.length = buf.length := by
  unfold from_file
  simp only []
  split
  · cases w.read with
    | none => rfl
    | some d =>
      simp only [readInto, List.length_append, List.length_take, List.length_drop]
      omega
  · rfl

/-- A run that passes every check of `main`: it formats the block of `n` bytes as
`from_file` leaves it. -/
theorem main_run (argv0 : String) (opts : List (Char × String)) (c : Config)
    (filename : String) (rest : List String) (w : World) (n : Nat)
    (hc : parseOpts opts {} = some c) (hst : w.stat = some (n : Int)) (hn : n < 2 ^ 63)
    (hm : w.malloc_buf = true)
    (hr : 0 ≤ (from_file w ((List.range n).map w.heap) n).1)
    (hb : c.basename = none → w.malloc_basename = true) :
    main argv0 opts (filename :: rest) w
      = { status := 0
          stdout := [c.prefix_ ++ "\n", declLine c (identifier c filename)]
            ++ bodyLines (from_file w ((List.range n).map w.heap) n).2
            ++ ["\x7d;\n\n", sizeLine c (identifier c filename) n]
          stderr := [] } := by
  have hlb : ((List.range (LINE_LEN * PER_BYTE + 1)).map w.stack).length = 49 := by
    simp [LINE_LEN, PER_BYTE]
  have hlen : (from_file w ((List.range n).map w.heap) n).2.length = n := by
    rw [from_file_length]; simp
  unfold main
  simp only [hc, hst, fsize, hm]
  rw [if_neg (by omega), if_neg (by simp)]
  simp only [toSizeT_natCast _ hn]
  rw [if_neg (by omega)]
  have hemit : ∀ ident, emit c ident (n : Int) (from_file w ((List.range n).map w.heap) n).2
      ((List.range (LINE_LEN * PER_BYTE + 1)).map w.stack) [] []
      = { status := 0
          stdout := [c.prefix_ ++ "\n", declLine c ident]
            ++ bodyLines (from_file w ((List.range n).map w.heap) n).2
            ++ ["\x7d;\n\n", sizeLine c ident n]
          stderr := [] } := by
    intro ident
    have := emit_spec c ident (from_file w ((List.range n).map w.heap) n).2 _ [] []
      (by rw [hlen]; exact hn) hlb
    rw [hlen] at this
    rw [this]
    simp
  unfold identifier
  cases hbn : c.basename with
  | some bn =>
    simp only []
    rw [hemit]
  | none =>
    simp only []
    rw [if_neg (by simp [hb hbn]), hemit]

theorem from_file_reads (w : World) (b : List Nat) (hw : w.Reads b) :
    from_file w ((List.range b.length).map w.heap) b.length = (1, b) := by
  obtain ⟨_, h2, _, h4, h5⟩ := hw
  simp only [from_file, h4, if_true, h5, readResult, toSsizeT_of_lt _ h2, readInto_fresh]

theorem main_success (argv0 : String) (opts : List (Char × String)) (c : Config)
    (filename : String) (rest : List String) (w : World) (b : List Nat)
    (hc : parseOpts opts {} = some c) (hw : w.Reads b)
    (hn : c.basename = none → w.malloc_basename = true) :
    main argv0 opts (filename :: rest) w
      = { status := 0
          stdout := [c.prefix_ ++ "\n", declLine c (identifier c filename)] ++ bodyLines b
            ++ ["\x7d;\n\n", sizeLine c (identifier c filename) b.length]
          stderr := [] } := by
  have hf := from_file_reads w b hw
  have := main_run argv0 opts c filename rest w b.length hc hw.1 hw.2.1 hw.2.2.1
    (by rw [hf]; exact Int.zero_le_ofNat 1) hn
  rw [hf] at this
  exact this

/-! ## Lemmas on the text of the output -/

theorem join_cons (s : String) (l : List String) : String.join (s :: l) = s ++ String.join l := by
  apply String.ext
  simp [String.join_eq]

theorem join_append (l1 l2 : List String) :
    String.join (l1 ++ l2) = String.join l1 ++ String.join l2 := by
  apply String.ext
  simp [String.join_eq]

theorem join_nil : String.join [] = "" := rfl

theorem hexVal_digit : ∀ k, k < 16 → hexVal (_hex_chars.getD k NUL) = some k := by decide

theorem decodeBody_hexLit (v : Nat) (rest : List Char) :
    decodeBody (hexLit v ++ rest) = (decodeBody rest).map (fun r => v % 256 :: r) := by
  have h1 := hexVal_digit (v % 256 / 16) (by omega)
  have h2 := hexVal_digit (v % 256 % 16) (by omega)
  simp only [hexLit, List.cons_append, List.nil_append, decodeBody, h1, h2, List.append_eq]
  cases decodeBody rest with
  | none => rfl
  | some r =>
    simp only [Option.map_some', Option.some.injEq, List.cons.injEq, and_true]
    omega


theorem decodeBody_lits (chunk : List Nat) (rest : List Char) :
    decodeBody ((chunk.map hexLit).flatten ++ rest)
      = (decodeBody rest).map (fun r => chunk.map (fun v => v % 256) ++ r) := by
  induction chunk with
  | nil => cases h : decodeBody rest <;> simp [h]
  | cons v chunk ih =>
    simp only [List.map_cons, List.flatten_cons, List.append_assoc]
    rw [decodeBody_hexLit, ih]
    cases h : decodeBody rest <;> simp

theorem renderLine_data (chunk : List Nat) :
    (renderLine chunk).data
      = ' ' :: ' ' :: ' ' :: ' ' :: ((chunk.map hexLit).flatten ++ ['\n']) := by
  simp [renderLine, String.data_append]

theorem decodeBody_line (chunk : List Nat) (rest : List Char) :
    decodeBody ((renderLine chunk).data ++ rest)
      = (decodeBody rest).map (fun r => chunk.map (fun v => v % 256) ++ r) := by
  rw [renderLine_data]
  simp only [List.cons_append, decodeBody, List.append_eq, List.append_assoc, List.nil_append]
  rw [decodeBody_lits]
  simp only [List.cons_append, List.nil_append, decodeBody]

theorem decodeBody_bodyLines : ∀ (n : Nat) (b : List Nat), b.length ≤ n →
    decodeBody (String.join (bodyLines b)).data = some (b.map (fun v => v % 256)) := by
  intro n
  induction n with
  | zero =>
    intro b hb
    have : b = [] := List.length_eq_zero.mp (by omega)
    subst this
    rfl
  | succ n ih =>
    intro b hb
    by_cases hnil : b = []
    · subst hnil; rfl
    · rw [bodyLines_unfold b hnil, join_cons, String.data_append, decodeBody_line,
        ih (b.drop 8) (by
          have := List.length_pos.mpr hnil
          simp only [List.length_drop]; omega)]
      simp only [Option.map_some', Option.some.injEq]
      rw [← List.map_append, List.take_append_drop]
theorem main_body (argv0 : String) (opts : List (Char × String)) (c : Config)
    (filename : String) (rest : List String) (w : World) (b : List Nat)
    (hc : parseOpts opts {} = some c) (hw : w.Reads b)
    (hn : c.basename = none → w.malloc_basename = true) :
    (main argv0 opts (filename :: rest) w).body = bodyLines b := by
  rw [main_success argv0 opts c filename rest w b hc hw hn]
  simp [Outcome.body]

theorem strchr_cons_ne (pre l : List Char) (c find : Char) (h : c ≠ find) :
    strchr (pre ++ c :: l) pre.length find = strchr ((pre ++ [c]) ++ l) (pre.length + 1) find := by
  unfold strchr
  have e1 : List.drop pre.length (pre ++ c :: l) = c :: l := by simp
  have e2 : List.drop (pre.length + 1) ((pre ++ [c]) ++ l) = l := by
    have : (pre ++ [c]).length = pre.length + 1 := by simp
    rw [← this, List.drop_left]
  simp only [e1, e2, List.length_cons]
  rw [List.indexOf_cons_ne _ h]
  by_cases hlt : List.indexOf find l < l.length
  · rw [if_pos (by omega), if_pos hlt]
    congr 1
    omega
  · rw [if_neg (by omega), if_neg hlt]

theorem strchrreplaceLoop_eq (find replace : Char) : ∀ (l pre : List Char),
    strchrreplaceLoop find replace (pre ++ l) (strchr (pre ++ l) pre.length find)
      = pre ++ l.map (replaceChar find replace) := by
  intro l
  induction l with
  | nil =>
    intro pre
    have : strchr (pre ++ []) pre.length find = none := by simp [strchr]
    rw [this, strchrreplaceLoop]
    simp
  | cons c l ih =>
    intro pre
    by_cases h : c = find
    · subst h
      have e : strchr (pre ++ c :: l) pre.length c = some pre.length := by simp [strchr]
      rw [e, strchrreplaceLoop]
      have e2 : (pre ++ c :: l).set pre.length replace = (pre ++ [replace]) ++ l := by
        simp [List.set_append]
      have e3 : pre.length + 1 = (pre ++ [replace]).length := by simp
      rw [e2, e3, ih (pre ++ [replace])]
      simp [replaceChar]
    · rw [strchr_cons_ne pre l c find h]
      have e3 : pre.length + 1 = (pre ++ [c]).length := by simp
      have e4 : pre ++ c :: l = (pre ++ [c]) ++ l := by simp
      rw [e3, e4, ih (pre ++ [c])]
      simp [replaceChar, h]

theorem strchrreplace_eq (str : String) (find replace : Char) :
    strchrreplace str find replace = String.mk (str.data.map (replaceChar find replace)) := by
  unfold strchrreplace
  have := strchrreplaceLoop_eq find replace str.data []
  simp only [List.nil_append, List.length_nil] at this
  rw [this]

theorem deriveBasename_eq (filename : String) :
    deriveBasename filename
      = BASENAME_PREFIX ++ String.mk (filename.data.map identChar) := by
  unfold deriveBasename
  rw [strchrreplace_eq, strchrreplace_eq]
  apply String.ext
  simp only [String.data_append, List.map_append, List.map_map]
  congr 1
  apply List.map_congr_left
  intro c _
  simp only [Function.comp, replaceChar, identChar]
  by_cases h1 : c = '/'
  · subst h1; decide
  · by_cases h2 : c = '.'
    · subst h2; decide
    · simp [h1, h2]
theorem renderLine_suffix (chunk : List Nat) (h : chunk ≠ []) :
    ∃ pre : String, renderLine chunk = pre ++ ", \n" := by
  obtain ⟨init, v, rfl⟩ : ∃ init v, chunk = init ++ [v] :=
    ⟨chunk.dropLast, chunk.getLast h, (List.dropLast_append_getLast h).symm⟩
  refine ⟨"    " ++ String.mk ((init.map hexLit).flatten ++ (hexLit v).take 4), ?_⟩
  apply String.ext
  simp [renderLine, String.data_append, hexLit]

theorem hex_chars_ne_newline : ∀ c ∈ _hex_chars, c ≠ '\n' := by decide

theorem hexLit_no_newline (v : Nat) : '\n' ∉ hexLit v := by
  have h1 := hex_chars_ne_newline _ (hexdigit_mem (v % 256 / 16) (by omega))
  have h2 := hex_chars_ne_newline _ (hexdigit_mem (v % 256 % 16) (by omega))
  intro hc
  simp only [hexLit, List.mem_cons, List.mem_singleton, List.not_mem_nil, or_false] at hc
  rcases hc with h | h | h | h | h | h
  · exact absurd h (by decide)
  · exact absurd h (by decide)
  · exact h1 h.symm
  · exact h2 h.symm
  · exact absurd h (by decide)
  · exact absurd h (by decide)

theorem renderLine_one_line (chunk : List Nat) :
    ∃ t : String, renderLine chunk = t ++ "\n" ∧ '\n' ∉ t.data := by
  refine ⟨"    " ++ String.mk (chunk.map hexLit).flatten, rfl, ?_⟩
  simp only [String.data_append, List.mem_append, List.mem_flatten, List.mem_map, not_or]
  refine ⟨by decide, ?_⟩
  rintro ⟨l, ⟨v, _, rfl⟩, hc⟩
  exact hexLit_no_newline v hc

theorem chunk_length (b : List Nat) (j : Nat) (hj : j < (b.length + 7) / 8) :
    0 < ((b.drop (8 * j)).take 8).length ∧ ((b.drop (8 * j)).take 8).length ≤ 8 ∧
    (j + 1 < (b.length + 7) / 8 → ((b.drop (8 * j)).take 8).length = 8) ∧
    (j + 1 = (b.length + 7) / 8 →
      ((b.drop (8 * j)).take 8).length = b.length - 8 * ((b.length + 7) / 8 - 1)) := by
  simp only [List.length_take, List.length_drop]
  omega
theorem digitChar_val : ∀ k, k < 10 → (Nat.digitChar k).toNat - '0'.toNat = k := by decide

theorem toDigitsCore_acc : ∀ (fuel n : Nat) (ds : List Char),
    Nat.toDigitsCore 10 fuel n ds = Nat.toDigitsCore 10 fuel n [] ++ ds := by
  intro fuel
  induction fuel with
  | zero => intro n ds; simp [Nat.toDigitsCore]
  | succ fuel ih =>
    intro n ds
    simp only [Nat.toDigitsCore]
    split
    · simp
    · rw [ih (n / 10) (Nat.digitChar (n % 10) :: ds), ih (n / 10) [Nat.digitChar (n % 10)]]
      simp

theorem readDecimal_concat (xs : List Char) (d : Char) :
    readDecimal (xs ++ [d]) = 10 * readDecimal xs + (d.toNat - '0'.toNat) := by
  simp [readDecimal, List.foldl_append]

theorem readDecimal_toDigitsCore : ∀ (fuel n : Nat), n < fuel →
    readDecimal (Nat.toDigitsCore 10 fuel n []) = n := by
  intro fuel
  induction fuel with
  | zero => intro n h; omega
  | succ fuel ih =>
    intro n h
    simp only [Nat.toDigitsCore]
    split
    · rename_i h0
      have := digitChar_val (n % 10) (by omega)
      simp only [readDecimal, List.foldl_cons, List.foldl_nil, Nat.mul_zero, Nat.zero_add]
      omega
    · rename_i h0
      rw [toDigitsCore_acc, readDecimal_concat, ih (n / 10) (by omega),
        digitChar_val (n % 10) (by omega)]
      omega

theorem readDecimal_toDigits (n : Nat) : readDecimal (Nat.toDigits 10 n) = n :=
  readDecimal_toDigitsCore (n + 1) n (Nat.lt_succ_self n)

theorem main_status_zero (argv0 : String) (opts : List (Char × String))
    (operands : List String) (w : World) (hs : (main argv0 opts operands w).status = 0) :
    ∃ c filename rest, parseOpts opts {} = some c ∧ operands = filename :: rest ∧
      0 ≤ fsize w.stat ∧ w.malloc_buf = true ∧
      0 ≤ (from_file w ((List.range (toSizeT (fsize w.stat))).map w.heap)
        (toSizeT (fsize w.stat))).1 ∧
      (c.basename = none → w.malloc_basename = true) := by
  unfold main at hs
  cases hc : parseOpts opts {} with
  | none => simp [hc, EXIT_FAILURE] at hs
  | some c =>
    cases operands with
    | nil => simp [hc, die] at hs
    | cons filename rest =>
      simp only [hc] at hs
      by_cases h1 : fsize w.stat < 0
      · simp [h1, die] at hs
      · rw [if_neg h1] at hs
        by_cases h2 : w.malloc_buf = false
        · simp [h2, die] at hs
        · rw [if_neg h2] at hs
          by_cases h3 : (from_file w ((List.range (toSizeT (fsize w.stat))).map w.heap)
              (toSizeT (fsize w.stat))).1 < 0
          · simp [h3, die] at hs
          · rw [if_neg h3] at hs
            refine ⟨c, filename, rest, rfl, rfl, by omega, by simpa using h2, by omega, ?_⟩
            intro hb
            simp only [hb] at hs
            by_cases h4 : w.malloc_basename = false
            · simp [h4, die] at hs
            · simpa using h4

theorem getLast?_frame (a d x y : String) (l : List String) :
    ([a, d] ++ l ++ [x, y]).getLast? = some y := by
  rw [show [a, d] ++ l ++ [x, y] = ([a, d] ++ l ++ [x]) ++ [y] by simp]
  exact List.getLast?_concat _

theorem body_frame (a d x y : String) (l : List String) (st : Int) (err : List String) :
    Outcome.body { status := st, stdout := [a, d] ++ l ++ [x, y], stderr := err } = l := by
  simp only [Outcome.body, List.cons_append, List.nil_append, List.drop_succ_cons,
    List.drop_zero]
  rw [show l ++ [x, y] = (l ++ [x]) ++ [y] by simp, List.dropLast_concat,
    List.dropLast_concat]

theorem parseOpts_default_text : ∀ (opts : List (Char × String)) (c0 c : Config),
    parseOpts opts c0 = some c → (∀ o ∈ opts, o.1 ≠ 'p') → c.prefix_ = c0.prefix_ := by
  intro opts
  induction opts with
  | nil =>
    intro c0 c h _
    simp only [parseOpts, Option.some.injEq] at h
    rw [h]
  | cons hd tl ih =>
    intro c0 c h hp
    obtain ⟨opt, optarg⟩ := hd
    have hne : opt ≠ 'p' := hp (opt, optarg) (List.mem_cons_self _ _)
    have htl : ∀ o ∈ tl, o.1 ≠ 'p' := fun o ho => hp o (List.mem_cons_of_mem _ ho)
    simp only [parseOpts] at h
    split_ifs at h with h1 h2 h3
    · have := ih _ _ h htl
      exact this
    · have := ih _ _ h htl
      exact this
    · have := ih _ _ h htl
      exact this

theorem main_error (argv0 : String) (opts : List (Char × String))
    (operands : List String) (w : World) (c : Config)
    (hc : parseOpts opts {} = some c)
    (herr : operands = [] ∨ fsize w.stat < 0 ∨ w.malloc_buf = false ∨
      (from_file w ((List.range (toSizeT (fsize w.stat))).map w.heap)
        (toSizeT (fsize w.stat))).1 < 0 ∨
      (c.basename = none ∧ w.malloc_basename = false)) :
    ∃ msg, main argv0 opts operands w = die [] [] msg := by
  unfold main
  simp only [hc]
  cases operands with
  | nil => exact ⟨_, rfl⟩
  | cons f r =>
    simp only []
    by_cases h1 : fsize w.stat < 0
    · rw [if_pos h1]; exact ⟨_, rfl⟩
    · rw [if_neg h1]
      by_cases h2 : w.malloc_buf = false
      · rw [if_pos h2]; exact ⟨_, rfl⟩
      · rw [if_neg h2]
        by_cases h3 : (from_file w ((List.range (toSizeT (fsize w.stat))).map w.heap)
            (toSizeT (fsize w.stat))).1 < 0
        · rw [if_pos h3]; exact ⟨_, rfl⟩
        · rw [if_neg h3]
          rcases herr with h | h | h | h | ⟨h5, h6⟩
          · cases h
          · exact absurd h h1
          · exact absurd h h2
          · exact absurd h h3
          · simp only [h5, h6, if_true]
            exact ⟨_, rfl⟩

theorem emit_status (c : Config) (ident : String) (size : Int) (buf : List Nat)
    (lb : List Char) (out err : List String) : (emit c ident size buf lb out err).status = 0 :=
  rfl

theorem main_stdout_or_ok (argv0 : String) (opts : List (Char × String))
    (operands : List String) (w : World) :
    (main argv0 opts operands w).stdout = [] ∨ (main argv0 opts operands w).status = 0 := by
  unfold main
  cases hp : parseOpts opts {} with
  | none => exact Or.inl rfl
  | some c =>
    cases operands with
    | nil => exact Or.inl rfl
    | cons f r =>
      simp only []
      by_cases h1 : fsize w.stat < 0
      · rw [if_pos h1]; exact Or.inl rfl
      · rw [if_neg h1]
        by_cases h2 : w.malloc_buf = false
        · rw [if_pos h2]; exact Or.inl rfl
        · rw [if_neg h2]
          by_cases h3 : (from_file w ((List.range (toSizeT (fsize w.stat))).map w.heap)
              (toSizeT (fsize w.stat))).1 < 0
          · rw [if_pos h3]; exact Or.inl rfl
          · rw [if_neg h3]
            cases hb : c.basename with
            | some bn => exact Or.inr (emit_status _ _ _ _ _ _ _)
            | none =>
              simp only []
              by_cases h4 : w.malloc_basename = false
              · rw [if_pos h4]; exact Or.inl rfl
              · rw [if_neg h4]; exact Or.inr (emit_status _ _ _ _ _ _ _)

/-! ## The claims -/

/-- C1: in a run that reads the bytes `b`, whatever the options, the text written to
standard output is the prefix portion followed by exactly: the line
`<type> <identifier>_data[] = {`, the array body lines, the line `};` and one empty
line, and the line `const <sizetype> <identifier>_size = <N>;` with `N` the length of
`b` in decimal, after which nothing is written; the status is 0. -/
theorem C1_output_frame (argv0 : String) (opts : List (Char × String)) (c : Config)
    (filename : String) (rest : List String) (w : World) (b : List Nat)
    (hc : parseOpts opts {} = some c) (hw : w.Reads b)
    (hn : c.basename = none → w.malloc_basename = true) :
    (main argv0 opts (filename :: rest) w).status = 0 ∧
    (main argv0 opts (filename :: rest) w).text
      = (c.prefix_ ++ "\n") ++
        (c.type ++ " " ++ identifier c filename ++ "_data[] = \x7b\n"
          ++ String.join (bodyLines b)
          ++ "\x7d;\n\n"
          ++ ("const " ++ c.sizetype ++ " " ++ identifier c filename ++ "_size = "
              ++ String.mk (Nat.toDigits 10 b.length) ++ ";\n")) ∧
    (main argv0 opts (filename :: rest) w).body = bodyLines b := by
  refine ⟨?_, ?_, main_body argv0 opts c filename rest w b hc hw hn⟩
  · rw [main_success argv0 opts c filename rest w b hc hw hn]
  · rw [main_success argv0 opts c filename rest w b hc hw hn]
    simp only [Outcome.text, List.cons_append, List.nil_append, join_cons, join_append,
      join_nil, declLine, sizeLine]
    apply String.ext
    simp [String.data_append]

theorem C1_output_frame_witness :
    (World.ofFile [1, 2, 255]).Reads [1, 2, 255] ∧
    (main "blob2c" [('b', "blob")] ["a.bin"] (World.ofFile [1, 2, 255])).text
      = "#include <stddef.h>\n\nconst char blob_data[] = \x7b\n    0x01, 0x02, 0xFF, \n\x7d;\n\nconst size_t blob_size = 3;\n" :=
  ⟨⟨rfl, by decide, rfl, by decide, rfl⟩,
   (C1_output_frame "blob2c" [('b', "blob")]
      { basename := some "blob" } "a.bin" [] (World.ofFile [1, 2, 255]) [1, 2, 255] rfl
      ⟨rfl, by decide, rfl, by decide, rfl⟩ (fun h => by simp at h)).2.1.trans (by decide)⟩

/-- C2: round trip. In a run that reads the bytes `b` (values 0..255), reading the
literals of the emitted array body back, in output order, with the two digits of each
`0xHH` taken as a base-16 number, gives exactly `b`, so the k-th literal gives byte k;
and a byte value `v` is written as `0x`, the digit of `v / 16`, the digit of `v % 16`
from `0123456789ABCDEF`, a comma and a space. -/
theorem C2_round_trip (argv0 : String) (opts : List (Char × String)) (c : Config)
    (filename : String) (rest : List String) (w : World) (b : List Nat)
    (hc : parseOpts opts {} = some c) (hw : w.Reads b)
    (hn : c.basename = none → w.malloc_basename = true) (hbytes : ∀ v ∈ b, v < 256) :
    decodeBody (String.join (main argv0 opts (filename :: rest) w).body).data = some b ∧
    (∀ (k v : Nat), b[k]? = some v →
      ∃ bs : List Nat, decodeBody (String.join (main argv0 opts (filename :: rest) w).body).data
        = some bs ∧ bs[k]? = some v) ∧
    (main argv0 opts (filename :: rest) w).body
      = (List.range ((b.length + 7) / 8)).map (fun j =>
          "    " ++ String.mk (((b.drop (8 * j)).take 8).map hexLit).flatten ++ "\n") ∧
    ∀ v, v < 256 →
      hexLit v = ['0', 'x', "0123456789ABCDEF".data.getD (v / 16) NUL,
        "0123456789ABCDEF".data.getD (v % 16) NUL, ',', ' '] ∧
      hexVal ("0123456789ABCDEF".data.getD (v / 16) NUL) = some (v / 16) ∧
      hexVal ("0123456789ABCDEF".data.getD (v % 16) NUL) = some (v % 16) ∧
      16 * (v / 16) + v % 16 = v := by
  have hbody := main_body argv0 opts c filename rest w b hc hw hn
  have hmap : b.map (fun v => v % 256) = b := by
    conv_rhs => rw [← List.map_id b]
    apply List.map_congr_left
    intro v hv
    exact Nat.mod_eq_of_lt (hbytes v hv)
  have hdec : decodeBody (String.join (main argv0 opts (filename :: rest) w).body).data
      = some b := by
    rw [hbody, decodeBody_bodyLines b.length b (Nat.le_refl _), hmap]
  refine ⟨hdec, fun k v hk => ⟨b, hdec, hk⟩, ?_, ?_⟩
  · rw [hbody]; rfl
  · intro v hv
    have e : v % 256 = v := Nat.mod_eq_of_lt hv
    refine ⟨by simp only [hexLit, e, _hex_chars], ?_, ?_, by omega⟩
    · exact hexVal_digit (v / 16) (by omega)
    · exact hexVal_digit (v % 16) (by omega)

theorem C2_round_trip_witness :
    (World.ofFile [0, 9, 10, 171, 255]).Reads [0, 9, 10, 171, 255] ∧
    (∀ v ∈ [0, 9, 10, 171, 255], v < 256) ∧
    decodeBody (String.join
      (main "blob2c" [] ["f"] (World.ofFile [0, 9, 10, 171, 255])).body).data
        = some [0, 9, 10, 171, 255] :=
  ⟨⟨rfl, by decide, rfl, by decide, rfl⟩, by decide,
   (C2_round_trip "blob2c" [] {} "f" [] (World.ofFile [0, 9, 10, 171, 255])
      [0, 9, 10, 171, 255] rfl ⟨rfl, by decide, rfl, by decide, rfl⟩ (fun _ => rfl)
      (by decide)).1⟩

/-- C3: in a run that reads `N` bytes, `N >= 0`, the array body holds exactly `N` hex
literals, each made of `0x`, two characters of `0123456789ABCDEF`, a comma and a
space (six characters), eight to a line after four spaces; every line of the body,
the last one included, ends with the comma and the space of its last literal. -/
theorem C3_literals (argv0 : String) (opts : List (Char × String)) (c : Config)
    (filename : String) (rest : List String) (w : World) (b : List Nat)
    (hc : parseOpts opts {} = some c) (hw : w.Reads b)
    (hn : c.basename = none → w.malloc_basename = true) :
    ∃ lits : List (List Char),
      lits.length = b.length ∧
      (∀ l ∈ lits, l.length = 6 ∧ ∃ h lo, h ∈ "0123456789ABCDEF".data ∧
        lo ∈ "0123456789ABCDEF".data ∧ l = ['0', 'x', h, lo, ',', ' ']) ∧
      (main argv0 opts (filename :: rest) w).body
        = (List.range ((b.length + 7) / 8)).map (fun j =>
            "    " ++ String.mk ((lits.drop (8 * j)).take 8).flatten ++ "\n") ∧
      (∀ line ∈ (main argv0 opts (filename :: rest) w).body,
        ∃ pre : String, line = pre ++ ", \n") ∧
      (decodeBody (String.join (main argv0 opts (filename :: rest) w).body).data).map
        List.length = some b.length := by
  have hbody := main_body argv0 opts c filename rest w b hc hw hn
  refine ⟨b.map hexLit, by simp, ?_, ?_, ?_, ?_⟩
  · intro l hl
    obtain ⟨v, _, rfl⟩ := List.mem_map.mp hl
    exact ⟨rfl, _, _, hexdigit_mem (v % 256 / 16) (by omega),
      hexdigit_mem (v % 256 % 16) (by omega), rfl⟩
  · rw [hbody]
    simp only [bodyLines, renderLine, List.map_drop, List.map_take]
  · rw [hbody]
    intro line hl
    simp only [bodyLines, List.mem_map, List.mem_range] at hl
    obtain ⟨j, hj, rfl⟩ := hl
    apply renderLine_suffix
    intro hnil
    have := (chunk_length b j hj).1
    rw [hnil] at this
    simp at this
  · rw [hbody, decodeBody_bodyLines b.length b (Nat.le_refl _)]
    simp

theorem C3_literals_witness :
    (World.ofFile [1, 2, 3, 4, 5, 6, 7, 8, 9]).Reads [1, 2, 3, 4, 5, 6, 7, 8, 9] ∧
    ∃ lits : List (List Char),
      lits.length = 9 ∧
      (main "blob2c" [] ["f"] (World.ofFile [1, 2, 3, 4, 5, 6, 7, 8, 9])).body
        = (List.range 2).map (fun j =>
            "    " ++ String.mk ((lits.drop (8 * j)).take 8).flatten ++ "\n") ∧
      (∀ line ∈ (main "blob2c" [] ["f"] (World.ofFile [1, 2, 3, 4, 5, 6, 7, 8, 9])).body,
        ∃ pre : String, line = pre ++ ", \n") :=
  ⟨⟨rfl, by decide, rfl, by decide, rfl⟩,
   (C3_literals "blob2c" [] {} "f" [] (World.ofFile [1, 2, 3, 4, 5, 6, 7, 8, 9])
     [1, 2, 3, 4, 5, 6, 7, 8, 9] rfl ⟨rfl, by decide, rfl, by decide, rfl⟩
     (fun _ => rfl)).imp (fun _ h => ⟨h.1, h.2.2.1, h.2.2.2.1⟩)⟩

/-- C4: in a run that reads `N` bytes the array body has exactly `ceil(N/8)` lines; each
is four spaces, the literals of one window of the bytes and a newline, with no other
newline in it; a line holds at most 8 literals and never none, every line but the last
holds 8, and the last holds `N - 8 * (ceil(N/8) - 1)`. For the bytes `00 01 .. 09` the
body is the line of `0x00` to `0x07` and the line of `0x08, 0x09, `. -/
theorem C4_lines (argv0 : String) (opts : List (Char × String)) (c : Config)
    (filename : String) (rest : List String) (w : World) (b : List Nat)
    (hc : parseOpts opts {} = some c) (hw : w.Reads b)
    (hn : c.basename = none → w.malloc_basename = true) :
    (main argv0 opts (filename :: rest) w).body.length = (b.length + 7) / 8 ∧
    (∀ j, j < (b.length + 7) / 8 →
      (main argv0 opts (filename :: rest) w).body[j]?
        = some ("    " ++ String.mk (((b.drop (8 * j)).take 8).map hexLit).flatten ++ "\n") ∧
      0 < ((b.drop (8 * j)).take 8).length ∧ ((b.drop (8 * j)).take 8).length ≤ 8 ∧
      (j + 1 < (b.length + 7) / 8 → ((b.drop (8 * j)).take 8).length = 8) ∧
      (j + 1 = (b.length + 7) / 8 →
        ((b.drop (8 * j)).take 8).length = b.length - 8 * ((b.length + 7) / 8 - 1))) ∧
    (∀ line ∈ (main argv0 opts (filename :: rest) w).body,
      ∃ t : String, line = "    " ++ t ++ "\n" ∧ '\n' ∉ t.data) ∧
    (b = [0, 1, 2, 3, 4, 5, 6, 7, 8, 9] →
      (main argv0 opts (filename :: rest) w).body
        = ["    0x00, 0x01, 0x02, 0x03, 0x04, 0x05, 0x06, 0x07, \n", "    0x08, 0x09, \n"]) := by
  have hbody := main_body argv0 opts c filename rest w b hc hw hn
  rw [hbody]
  refine ⟨by simp [bodyLines], ?_, ?_, ?_⟩
  · intro j hj
    refine ⟨?_, chunk_length b j hj⟩
    simp only [bodyLines, List.getElem?_map, List.getElem?_range hj, Option.map_some',
      renderLine]
  · intro line hl
    simp only [bodyLines, List.mem_map, List.mem_range] at hl
    obtain ⟨j, _, rfl⟩ := hl
    refine ⟨String.mk (((b.drop (8 * j)).take 8).map hexLit).flatten, rfl, ?_⟩
    simp only [List.mem_flatten, List.mem_map, not_exists, not_and]
    rintro l ⟨v, _, rfl⟩ hc
    exact hexLit_no_newline v hc
  · intro hb
    subst hb
    decide

theorem C4_lines_witness :
    (World.ofFile [0, 1, 2, 3, 4, 5, 6, 7, 8, 9]).Reads [0, 1, 2, 3, 4, 5, 6, 7, 8, 9] ∧
    (main "blob2c" [] ["ten.bin"] (World.ofFile [0, 1, 2, 3, 4, 5, 6, 7, 8, 9])).body.length
      = 2 ∧
    (main "blob2c" [] ["ten.bin"] (World.ofFile [0, 1, 2, 3, 4, 5, 6, 7, 8, 9])).body
      = ["    0x00, 0x01, 0x02, 0x03, 0x04, 0x05, 0x06, 0x07, \n", "    0x08, 0x09, \n"] :=
  ⟨⟨rfl, by decide, rfl, by decide, rfl⟩,
   (C4_lines "blob2c" [] {} "ten.bin" [] (World.ofFile [0, 1, 2, 3, 4, 5, 6, 7, 8, 9])
     [0, 1, 2, 3, 4, 5, 6, 7, 8, 9] rfl ⟨rfl, by decide, rfl, by decide, rfl⟩
     (fun _ => rfl)).1,
   (C4_lines "blob2c" [] {} "ten.bin" [] (World.ofFile [0, 1, 2, 3, 4, 5, 6, 7, 8, 9])
     [0, 1, 2, 3, 4, 5, 6, 7, 8, 9] rfl ⟨rfl, by decide, rfl, by decide, rfl⟩
     (fun _ => rfl)).2.2.2 rfl⟩

/-- C5: in every run that ends with status 0, `n` being the byte length of the input
file as `stat` reports it, the number printed as the value of `<identifier>_size` is
`n` in decimal (read back, the digits give `n`), and the array body holds exactly `n`
hex literals. -/
theorem C5_size_value (argv0 : String) (opts : List (Char × String))
    (operands : List String) (w : World) (n : Nat)
    (hst : w.stat = some (n : Int)) (hn : n < 2 ^ 63)
    (hs : (main argv0 opts operands w).status = 0) :
    ∃ (c : Config) (ident : String) (digits : List Char),
      parseOpts opts {} = some c ∧
      (main argv0 opts operands w).stdout.getLast?
        = some ("const " ++ c.sizetype ++ " " ++ ident ++ "_size = " ++ String.mk digits
            ++ ";\n") ∧
      digits = Nat.toDigits 10 n ∧ readDecimal digits = n ∧
      (decodeBody (String.join (main argv0 opts operands w).body).data).map List.length
        = some n := by
  obtain ⟨c, filename, rest, hc, rfl, _, h2, h3, h4⟩ := main_status_zero argv0 opts operands w hs
  have hf : fsize w.stat = (n : Int) := by rw [hst]; rfl
  rw [hf, toSizeT_natCast n hn] at h3
  have hrun := main_run argv0 opts c filename rest w n hc hst hn h2 h3 h4
  have hlen : (from_file w ((List.range n).map w.heap) n).2.length = n := by
    rw [from_file_length]; simp
  refine ⟨c, identifier c filename, Nat.toDigits 10 n, hc, ?_, rfl, readDecimal_toDigits n, ?_⟩
  · rw [hrun]
    exact getLast?_frame _ _ _ _ _
  · rw [hrun, body_frame, decodeBody_bodyLines _ _ (Nat.le_refl _)]
    simp [hlen]

theorem C5_size_value_witness :
    (World.ofFile [7, 7, 7, 7, 7, 7, 7, 7, 7, 7, 7, 7]).stat = some ((12 : Nat) : Int) ∧
    (12 : Nat) < 2 ^ 63 ∧
    ∃ (c : Config) (ident : String) (digits : List Char),
      parseOpts [('s', "unsigned")] {} = some c ∧
      (main "blob2c" [('s', "unsigned")] ["f"]
          (World.ofFile [7, 7, 7, 7, 7, 7, 7, 7, 7, 7, 7, 7])).stdout.getLast?
        = some ("const " ++ c.sizetype ++ " " ++ ident ++ "_size = " ++ String.mk digits
            ++ ";\n") ∧
      digits = ['1', '2'] ∧ readDecimal digits = 12 :=
  ⟨rfl, by decide,
   (C5_size_value "blob2c" [('s', "unsigned")] ["f"]
      (World.ofFile [7, 7, 7, 7, 7, 7, 7, 7, 7, 7, 7, 7]) 12 rfl (by decide)
      (congrArg Outcome.status
        (main_success "blob2c" [('s', "unsigned")] { sizetype := "unsigned" } "f" []
          (World.ofFile [7, 7, 7, 7, 7, 7, 7, 7, 7, 7, 7, 7])
          [7, 7, 7, 7, 7, 7, 7, 7, 7, 7, 7, 7] rfl ⟨rfl, by decide, rfl, by decide, rfl⟩
          (fun _ => rfl)))).imp
    (fun _ h => h.imp (fun _ h => h.imp (fun _ h => ⟨h.1, h.2.1, h.2.2.1, h.2.2.2.1⟩)))⟩

/-- C6: when no identifier is given with `-b`, the identifier derived from the input
path `p` is `_blob_` followed by `p` with every `/` and every `.` replaced by `_` and
every other character left as it is at its position, of the same length as
`_blob_` followed by `p`, and it names both symbols; for `assets/font.bin` it is
`_blob_assets_font_bin`. -/
theorem C6_derived_identifier (argv0 : String) (opts : List (Char × String)) (c : Config)
    (p : String) (rest : List String) (w : World) (b : List Nat)
    (hc : parseOpts opts {} = some c) (hnb : c.basename = none) (hw : w.Reads b)
    (hm : w.malloc_basename = true) :
    deriveBasename p = "_blob_" ++ String.mk (p.data.map identChar) ∧
    (deriveBasename p).length = ("_blob_" ++ p).length ∧
    (∀ i : Nat, (deriveBasename p).data[i]?
      = (("_blob_" ++ p).data[i]?).map (fun ch => if ch = '/' ∨ ch = '.' then '_' else ch)) ∧
    (main argv0 opts (p :: rest) w).stdout[1]?
      = some (c.type ++ " " ++ deriveBasename p ++ "_data[] = \x7b\n") ∧
    (main argv0 opts (p :: rest) w).stdout.getLast?
      = some ("const " ++ c.sizetype ++ " " ++ deriveBasename p ++ "_size = "
          ++ String.mk (Nat.toDigits 10 b.length) ++ ";\n") ∧
    deriveBasename "assets/font.bin" = "_blob_assets_font_bin" := by
  have hid : identifier c p = deriveBasename p := by simp [identifier, hnb]
  have hrun := main_success argv0 opts c p rest w b hc hw (fun _ => hm)
  rw [hid] at hrun
  refine ⟨deriveBasename_eq p, ?_, ?_, ?_, ?_, ?_⟩
  · rw [deriveBasename_eq, String.length_append, String.length_append]
    simp only [String.length, List.length_map]
    rfl
  · intro i
    have e : deriveBasename p = String.mk (("_blob_" ++ p).data.map identChar) := by
      rw [deriveBasename_eq]
      apply String.ext
      simp only [String.data_append, List.map_append, BASENAME_PREFIX]
      rfl
    rw [e]
    simp only [List.getElem?_map]
    rfl
  · rw [hrun]; simp [declLine]
  · rw [hrun]; exact getLast?_frame _ _ _ _ _
  · rw [deriveBasename_eq]
    decide

theorem C6_derived_identifier_witness :
    parseOpts [] {} = some {} ∧ (World.ofFile [1]).Reads [1] ∧
    (main "blob2c" [] ["assets/font.bin"] (World.ofFile [1])).stdout[1]?
      = some ("const char" ++ " " ++ deriveBasename "assets/font.bin" ++ "_data[] = \x7b\n") ∧
    (main "blob2c" [] ["assets/font.bin"] (World.ofFile [1])).stdout.getLast?
      = some ("const " ++ "size_t" ++ " " ++ deriveBasename "assets/font.bin" ++ "_size = "
          ++ "1" ++ ";\n") ∧
    deriveBasename "assets/font.bin" = "_blob_assets_font_bin" :=
  ⟨rfl, ⟨rfl, by decide, rfl, by decide, rfl⟩,
   (C6_derived_identifier "blob2c" [] {} "assets/font.bin" [] (World.ofFile [1]) [1] rfl rfl
      ⟨rfl, by decide, rfl, by decide, rfl⟩ rfl).2.2.2⟩

/-- C8 (the code at a failing input): after a short read (2 of 4 bytes) and after a
failed read, `from_file` returns 0, which is not below 0, so `main` does not take its
error exit: the status is 0 and the array is emitted, with bytes the file did not
give. -/
theorem C8_short_read_is_not_reported :
    (from_file World.shortRead ((List.range 4).map World.shortRead.heap) 4).1 = 0 ∧
    (from_file World.readError ((List.range 4).map World.readError.heap) 4).1 = 0 ∧
    (main "blob2c" [('b', "blob")] ["f"] World.shortRead).status = 0 ∧
    (main "blob2c" [('b', "blob")] ["f"] World.shortRead).stdout
      = ["#include <stddef.h>\n\n", "const char blob_data[] = \x7b\n",
         "    0x01, 0x02, 0xAA, 0xAA, \n", "\x7d;\n\n", "const size_t blob_size = 4;\n"] ∧
    (main "blob2c" [('b', "blob")] ["f"] World.readError).status = 0 ∧
    (main "blob2c" [('b', "blob")] ["f"] World.readError).stdout
      = ["#include <stddef.h>\n\n", "const char blob_data[] = \x7b\n",
         "    0xAA, 0xAA, 0xAA, 0xAA, \n", "\x7d;\n\n", "const size_t blob_size = 4;\n"] := by
  have r1 := main_run "blob2c" [('b', "blob")] { basename := some "blob" } "f" []
    World.shortRead 4 rfl rfl (by decide) rfl (by decide) (fun h => by simp at h)
  have r2 := main_run "blob2c" [('b', "blob")] { basename := some "blob" } "f" []
    World.readError 4 rfl rfl (by decide) rfl (by decide) (fun h => by simp at h)
  refine ⟨by decide, by decide, ?_, ?_, ?_, ?_⟩
  · rw [r1]
  · rw [r1]; decide
  · rw [r2]
  · rw [r2]; decide

/-- C9: on each fatal error path of `main` (no file name argument, failing size query,
failing buffer allocation, `from_file` reporting an error, failing identifier
allocation) the run ends with status 1, one message on standard error and nothing on
standard output; and in every run whatever, a status other than 0 comes with an empty
standard output. -/
theorem C9_no_output_on_error (argv0 : String) (opts : List (Char × String))
    (operands : List String) (w : World) (c : Config)
    (hc : parseOpts opts {} = some c)
    (herr : operands = [] ∨ fsize w.stat < 0 ∨ w.malloc_buf = false ∨
      (from_file w ((List.range (toSizeT (fsize w.stat))).map w.heap)
        (toSizeT (fsize w.stat))).1 < 0 ∨
      (c.basename = none ∧ w.malloc_basename = false)) :
    (main argv0 opts operands w).status = 1 ∧
    (main argv0 opts operands w).stdout = [] ∧
    (main argv0 opts operands w).stderr.length = 1 ∧
    (∀ (a : String) (o : List (Char × String)) (ops : List String) (w2 : World),
      (main a o ops w2).status ≠ 0 → (main a o ops w2).stdout = []) := by
  obtain ⟨msg, hmsg⟩ := main_error argv0 opts operands w c hc herr
  refine ⟨by rw [hmsg]; rfl, by rw [hmsg]; rfl, by rw [hmsg]; rfl, ?_⟩
  intro a o ops w2 hs
  rcases main_stdout_or_ok a o ops w2 with h | h
  · exact h
  · exact absurd h hs

theorem C9_no_output_on_error_witness :
    parseOpts [('t', "uint8_t")] {} = some { type := "uint8_t" } ∧
    (main "blob2c" [('t', "uint8_t")] ["missing.bin"]
      { World.ofFile [] with stat := none }).status = 1 ∧
    (main "blob2c" [('t', "uint8_t")] ["missing.bin"]
      { World.ofFile [] with stat := none }).stdout = [] :=
  ⟨rfl,
   (C9_no_output_on_error "blob2c" [('t', "uint8_t")] ["missing.bin"]
      { World.ofFile [] with stat := none } { type := "uint8_t" } rfl
      (Or.inr (Or.inl (by decide)))).1,
   (C9_no_output_on_error "blob2c" [('t', "uint8_t")] ["missing.bin"]
      { World.ofFile [] with stat := none } { type := "uint8_t" } rfl
      (Or.inr (Or.inl (by decide)))).2.1⟩

/-- C10 (as stated, refuted): with the prefix text `/* blob */` given by `-p`, the output
is that text, one newline and at once the array declaration line; it does not start
with the text, a newline and an empty line. -/
theorem C10_counterexample :
    (main "blob2c" [('p', "/* blob */"), ('b', "x")] ["f"] (World.ofFile [1])).text
      = "/* blob */\nconst char x_data[] = \x7b\n    0x01, \n\x7d;\n\nconst size_t x_size = 1;\n" ∧
    ¬ List.IsPrefix ("/* blob */" ++ "\n" ++ "\n").data
      (main "blob2c" [('p', "/* blob */"), ('b', "x")] ["f"] (World.ofFile [1])).text.data := by
  have h := main_success "blob2c" [('p', "/* blob */"), ('b', "x")]
    { basename := some "x", prefix_ := "/* blob */" } "f" [] (World.ofFile [1]) [1] rfl
    ⟨rfl, by decide, rfl, by decide, rfl⟩ (fun h => by simp at h)
  rw [h]
  refine ⟨by decide, by decide⟩

/-- C10 (amended): for every prefix text, the output starts with the prefix text, then
one newline, then at once the array declaration line; when the prefix text itself ends
with a newline, as the default `#include <stddef.h>` line does when `-p` is not given,
an empty line stands before the array declaration line. -/
theorem C10_prefix_then_declaration (argv0 : String) (opts : List (Char × String))
    (c : Config) (filename : String) (rest : List String) (w : World) (b : List Nat)
    (hc : parseOpts opts {} = some c) (hw : w.Reads b)
    (hn : c.basename = none → w.malloc_basename = true) :
    ∃ tail : String,
      (main argv0 opts (filename :: rest) w).text
        = c.prefix_ ++ "\n"
          ++ (c.type ++ " " ++ identifier c filename ++ "_data[] = \x7b\n") ++ tail ∧
      (∀ q : String, c.prefix_ = q ++ "\n" →
        (main argv0 opts (filename :: rest) w).text
          = q ++ "\n" ++ "\n"
            ++ (c.type ++ " " ++ identifier c filename ++ "_data[] = \x7b\n") ++ tail) ∧
      ((∀ o ∈ opts, o.1 ≠ 'p') →
        (main argv0 opts (filename :: rest) w).text
          = "#include <stddef.h>" ++ "\n" ++ "\n"
            ++ (c.type ++ " " ++ identifier c filename ++ "_data[] = \x7b\n") ++ tail) := by
  have key : (main argv0 opts (filename :: rest) w).text
      = c.prefix_ ++ "\n"
        ++ (c.type ++ " " ++ identifier c filename ++ "_data[] = \x7b\n")
        ++ String.join (bodyLines b
            ++ ["\x7d;\n\n", sizeLine c (identifier c filename) b.length]) := by
    rw [main_success argv0 opts c filename rest w b hc hw hn]
    simp only [Outcome.text, List.cons_append, List.nil_append, join_cons, declLine]
    apply String.ext
    simp [String.data_append]
  refine ⟨_, key, ?_, ?_⟩
  · intro q hq
    rw [key, hq]
  · intro hp
    have e : c.prefix_ = "#include <stddef.h>" ++ "\n" :=
      parseOpts_default_text opts {} c hc hp
    rw [key, e]

theorem C10_prefix_then_declaration_witness :
    (World.ofFile [1]).Reads [1] ∧
    ∃ tail : String,
      (main "blob2c" [('b', "x")] ["f"] (World.ofFile [1])).text
        = "#include <stddef.h>" ++ "\n" ++ "\n" ++ ("const char" ++ " " ++ "x" ++ "_data[] = \x7b\n")
          ++ tail :=
  ⟨⟨rfl, by decide, rfl, by decide, rfl⟩,
   (C10_prefix_then_declaration "blob2c" [('b', "x")] { basename := some "x" } "f" []
      (World.ofFile [1]) [1] rfl ⟨rfl, by decide, rfl, by decide, rfl⟩
      (fun h => by simp at h)).imp (fun _ h => h.2.2 (by decide))⟩

/-! ## Lemmas on the exit status, the iterations of the loop and the checked loop -/

theorem parseOpts_unrecognized : ∀ (opts : List (Char × String)) (c0 : Config),
    (∃ o ∈ opts, o.1 ≠ 's' ∧ o.1 ≠ 't' ∧ o.1 ≠ 'p' ∧ o.1 ≠ 'b') → parseOpts opts c0 = none := by
  intro opts
  induction opts with
  | nil =>
    intro c0 h
    obtain ⟨o, ho, _⟩ := h
    cases ho
  | cons hd tl ih =>
    intro c0 h
    obtain ⟨opt, optarg⟩ := hd
    obtain ⟨o, ho, h1, h2, h3, h4⟩ := h
    simp only [parseOpts]
    rcases List.mem_cons.mp ho with rfl | hmem
    · simp only at h1 h2 h3 h4
      rw [if_neg h1, if_neg h2, if_neg h3, if_neg h4]
    · have hrec : ∀ c1, parseOpts tl c1 = none := fun c1 => ih c1 ⟨o, hmem, h1, h2, h3, h4⟩
      split_ifs <;> first | exact hrec _ | rfl

theorem main_status_cases (argv0 : String) (opts : List (Char × String))
    (operands : List String) (w : World) :
    (main argv0 opts operands w).status = 0 ∨ (main argv0 opts operands w).status = 1 := by
  unfold main
  cases hp : parseOpts opts {} with
  | none => exact Or.inr rfl
  | some c =>
    cases operands with
    | nil => exact Or.inr rfl
    | cons f r =>
      simp only []
      by_cases h1 : fsize w.stat < 0
      · rw [if_pos h1]; exact Or.inr rfl
      · rw [if_neg h1]
        by_cases h2 : w.malloc_buf = false
        · rw [if_pos h2]; exact Or.inr rfl
        · rw [if_neg h2]
          by_cases h3 : (from_file w ((List.range (toSizeT (fsize w.stat))).map w.heap)
              (toSizeT (fsize w.stat))).1 < 0
          · rw [if_pos h3]; exact Or.inr rfl
          · rw [if_neg h3]
            cases hb : c.basename with
            | some bn => exact Or.inl (emit_status _ _ _ _ _ _ _)
            | none =>
              simp only []
              by_cases h4 : w.malloc_basename = false
              · rw [if_pos h4]; exact Or.inr rfl
              · rw [if_neg h4]; exact Or.inl (emit_status _ _ _ _ _ _ _)

theorem whileLoop_unfold (buf : List Nat) (s : LoopState) :
    whileLoop buf s = if s.left ≠ 0 then whileLoop buf (loopBody buf s) else s := by
  rw [whileLoop]
  by_cases h : s.left ≠ 0
  · rw [dif_pos h, if_pos h]
    rfl
  · rw [dif_neg h, if_neg h]

theorem line_len_of_eq (left : Nat) : line_len_of left = min left 8 := by
  unfold line_len_of LINE_LEN
  split <;> omega

theorem forLoop_fst (buf : List Nat) (n : Nat) : ∀ (d i pos : Nat) (lb : List Char),
    n - i = d → (forLoop buf n i pos lb).1 = pos + (n - i) := by
  intro d
  induction d with
  | zero =>
    intro i pos lb hd
    rw [forLoop, if_neg (by omega)]
    simp only []
    omega
  | succ d ih =>
    intro i pos lb hd
    rw [forLoop, if_pos (by omega)]
    simp only []
    rw [ih (i + 1) (pos + 1) _ (by omega)]
    omega

theorem loopBody_left (buf : List Nat) (s : LoopState) :
    (loopBody buf s).left = s.left - line_len_of s.left := rfl

theorem loopBody_pos (buf : List Nat) (s : LoopState) :
    (loopBody buf s).pos = s.pos + line_len_of s.left := by
  have := forLoop_fst buf (line_len_of s.left) (line_len_of s.left) 0 s.pos s.line_buf rfl
  simp only [Nat.sub_zero] at this
  exact this

theorem loopBody_line (buf : List Nat) (s : LoopState)
    (hlb : s.line_buf.length = 49) (hinv : s.pos + s.left = buf.length) :
    (loopBody buf s).line_buf.length = 49 ∧
    (loopBody buf s).out
      = s.out ++ [renderLine ((buf.drop s.pos).take (line_len_of s.left))] := by
  have hll := line_len_of_eq s.left
  obtain ⟨_, f2, f3⟩ := forLoop_spec buf (line_len_of s.left) (line_len_of s.left) 0 s.pos
    s.line_buf (by omega) (by omega) (by omega) hlb (by omega)
  refine ⟨f2, ?_⟩
  show s.out ++ [fprintf_line (line_len_of s.left * PER_BYTE)
    (forLoop buf (line_len_of s.left) 0 s.pos s.line_buf).2] = _
  congr 2
  apply fprintf_line_eq
  rw [f3]
  simp

theorem iterate_state (buf : List Nat) (lb : List Char) (out : List String)
    (hlb : lb.length = 49) : ∀ j : Nat,
    (Nat.iterate (loopBody buf) j
      { left := buf.length, pos := 0, line_buf := lb, out := out }).left
        = buf.length - 8 * j ∧
    (Nat.iterate (loopBody buf) j
      { left := buf.length, pos := 0, line_buf := lb, out := out }).pos
        = min (8 * j) buf.length ∧
    (Nat.iterate (loopBody buf) j
      { left := buf.length, pos := 0, line_buf := lb, out := out }).line_buf.length = 49 := by
  intro j
  induction j with
  | zero => exact ⟨by simp, by simp, hlb⟩
  | succ j ih =>
    obtain ⟨h1, h2, h3⟩ := ih
    rw [Function.iterate_succ_apply']
    have hl := line_len_of_eq (Nat.iterate (loopBody buf) j
      { left := buf.length, pos := 0, line_buf := lb, out := out }).left
    refine ⟨?_, ?_, ?_⟩
    · rw [loopBody_left]; omega
    · rw [loopBody_pos]; omega
    · exact (loopBody_line buf _ h3 (by omega)).1

theorem whileLoop_iterate (buf : List Nat) : ∀ (m : Nat) (s : LoopState), s.left ≤ 8 * m →
    whileLoop buf s = Nat.iterate (loopBody buf) ((s.left + 7) / 8) s := by
  intro m
  induction m with
  | zero =>
    intro s hs
    have h0 : s.left = 0 := by omega
    rw [whileLoop_unfold, if_neg (by simp [h0]), h0]
    rfl
  | succ m ih =>
    intro s hs
    by_cases h0 : s.left = 0
    · rw [whileLoop_unfold, if_neg (by simp [h0]), h0]
      rfl
    · rw [whileLoop_unfold, if_pos h0]
      have hl := line_len_of_eq s.left
      have hleft := loopBody_left buf s
      rw [ih (loopBody buf s) (by omega)]
      have e : (s.left + 7) / 8 = ((loopBody buf s).left + 7) / 8 + 1 := by omega
      rw [e, Function.iterate_succ_apply]

theorem windows_flatten : ∀ (n : Nat) (b : List Nat), b.length ≤ n →
    ((List.range ((b.length + 7) / 8)).map (fun j => (b.drop (8 * j)).take 8)).flatten = b := by
  intro n
  induction n with
  | zero =>
    intro b hb
    have : b = [] := List.length_eq_zero.mp (by omega)
    subst this
    rfl
  | succ n ih =>
    intro b hb
    by_cases hnil : b = []
    · subst hnil; rfl
    · have hl : 0 < b.length := List.length_pos.mpr hnil
      have e : (b.length + 7) / 8 = ((b.drop 8).length + 7) / 8 + 1 := by
        simp only [List.length_drop]
        omega
      rw [e, List.range_succ_eq_map]
      simp only [List.map_cons, List.map_map, Nat.mul_zero, List.drop_zero, List.flatten_cons]
      have hrec := ih (b.drop 8) (by simp only [List.length_drop]; omega)
      have hfun : ((fun j => List.take 8 (List.drop (8 * j) b)) ∘ Nat.succ)
          = (fun j => List.take 8 (List.drop (8 * j) (List.drop 8 b))) := by
        funext j
        simp only [Function.comp, List.drop_drop, Nat.succ_eq_add_one]
        congr 2
        omega
      rw [hfun, hrec, List.take_append_drop]

theorem hex_index_lt (v : Nat) : (v % 256) >>> 4 < 16 ∧ (v % 256) &&& 0x0F < 16 := by
  rw [hex_shift, hex_mask]
  omega

theorem sprintf_byte_length (lb : List Char) (off : Nat) (hi lo : Char) :
    (sprintf_byte lb off hi lo).length = lb.length := by
  simp [sprintf_byte, writeAt]

theorem forLoopChecked_eq (buf : List Nat) (n : Nat) : ∀ (d i pos : Nat) (lb : List Char),
    n - i = d → i ≤ n → n ≤ 8 → lb.length = 49 → pos + (n - i) ≤ buf.length →
    forLoopChecked buf n i pos lb = some (forLoop buf n i pos lb) := by
  intro d
  induction d with
  | zero =>
    intro i pos lb hd hi hn hlb hpos
    rw [forLoopChecked, forLoop, if_neg (by omega), if_neg (by omega)]
  | succ d ih =>
    intro i pos lb hd hi hn hlb hpos
    have hin : i < n := by omega
    have hp : pos < buf.length := by omega
    have hidx : (buf.getD pos 0 % 256) >>> 4 < _hex_chars.length ∧
        (buf.getD pos 0 % 256) &&& 0x0F < _hex_chars.length := hex_index_lt (buf.getD pos 0)
    have hw : i * PER_BYTE + 7 ≤ lb.length := by simp only [PER_BYTE]; omega
    rw [forLoopChecked, if_pos hin, if_pos hp]
    simp only []
    rw [if_pos hidx, if_pos hw]
    conv_rhs => rw [forLoop, if_pos hin]
    exact ih (i + 1) (pos + 1) _ (by omega) (by omega) hn
      (by rw [sprintf_byte_length]; exact hlb) (by omega)

theorem whileLoopChecked_eq (buf : List Nat) : ∀ (m : Nat) (s : LoopState),
    s.left ≤ m → s.line_buf.length = 49 → s.pos + s.left = buf.length →
    whileLoopChecked buf s = some (whileLoop buf s) := by
  intro m
  induction m with
  | zero =>
    intro s hm hlb hinv
    have h0 : s.left = 0 := by omega
    rw [whileLoopChecked, whileLoop, dif_neg (by simp [h0]), dif_neg (by simp [h0])]
  | succ m ih =>
    intro s hm hlb hinv
    by_cases h0 : s.left = 0
    · rw [whileLoopChecked, whileLoop, dif_neg (by simp [h0]), dif_neg (by simp [h0])]
    · rw [whileLoopChecked, whileLoop, dif_pos h0, dif_pos h0]
      simp only []
      have hll : (if s.left > LINE_LEN then LINE_LEN else s.left) = min s.left 8 := by
        simp only [LINE_LEN]
        split <;> omega
      rw [hll]
      obtain ⟨f1, f2, _⟩ := forLoop_spec buf (min s.left 8) (min s.left 8) 0 s.pos s.line_buf
        (by omega) (by omega) (by omega) hlb (by omega)
      rw [forLoopChecked_eq buf (min s.left 8) (min s.left 8) 0 s.pos s.line_buf
        (by omega) (by omega) (by omega) hlb (by omega)]
      simp only []
      rw [if_pos (by rw [f2]; simp only [PER_BYTE]; omega)]
      exact ih _ (by simp only; omega) f2 (by simp only; rw [f1]; omega)

/-! ## The claims on the empty file, the exit status, the options, the loop and the identifier -/

/-- C11: for an input file of size 0, read without error, the run ends with status 0;
between the opening line `... _data[] = {` and the closing line `};`, both emitted,
there is no body line, and the value printed for the size constant is 0. -/
theorem C11_empty_file (argv0 : String) (opts : List (Char × String)) (c : Config)
    (filename : String) (rest : List String) (w : World)
    (hc : parseOpts opts {} = some c) (hw : w.Reads [])
    (hn : c.basename = none → w.malloc_basename = true) :
    (main argv0 opts (filename :: rest) w).status = 0 ∧
    (main argv0 opts (filename :: rest) w).stdout
      = [c.prefix_ ++ "\n",
         c.type ++ " " ++ identifier c filename ++ "_data[] = \x7b\n",
         "\x7d;\n\n",
         "const " ++ c.sizetype ++ " " ++ identifier c filename ++ "_size = " ++ "0" ++ ";\n"] ∧
    (main argv0 opts (filename :: rest) w).body = [] ∧
    readDecimal "0".data = 0 := by
  have h := main_success argv0 opts c filename rest w [] hc hw hn
  refine ⟨by rw [h], ?_, ?_, by decide⟩
  · rw [h]
    rfl
  · rw [main_body argv0 opts c filename rest w [] hc hw hn]
    rfl

theorem C11_empty_file_witness :
    (World.ofFile []).Reads [] ∧
    (main "blob2c" [] ["empty.bin"] (World.ofFile [])).status = 0 ∧
    (main "blob2c" [] ["empty.bin"] (World.ofFile [])).body = [] :=
  ⟨⟨rfl, by decide, rfl, by decide, rfl⟩,
   (C11_empty_file "blob2c" [] {} "empty.bin" [] (World.ofFile []) rfl
      ⟨rfl, by decide, rfl, by decide, rfl⟩ (fun _ => rfl)).1,
   (C11_empty_file "blob2c" [] {} "empty.bin" [] (World.ofFile []) rfl
      ⟨rfl, by decide, rfl, by decide, rfl⟩ (fun _ => rfl)).2.2.1⟩

/-- C12 (as stated, refuted): the run with an unrecognized flag (`getopt` gives `?`) and
the run that dies for a missing file name end with the same status, 1: the status of
the usage error is not distinct from the status of the fatal errors. -/
theorem C12_counterexample :
    (main "blob2c" [('?', "")] ["f"] (World.ofFile [])).status = 1 ∧
    (main "blob2c" [] [] (World.ofFile [])).status = 1 ∧
    ¬ ((main "blob2c" [('?', "")] ["f"] (World.ofFile [])).status
        ≠ (main "blob2c" [] [] (World.ofFile [])).status) := by
  refine ⟨by decide, by decide, by decide⟩

/-- C12 (amended): on an unrecognized flag the run ends with status `EXIT_FAILURE`,
which is 1, the same value as the status of every fatal error reported through `die`;
nothing is written to standard output, and standard error holds the diagnostic of
`getopt` followed by the usage text; this status differs from the status 0 of a run
that succeeds, and every run ends with status 0 or 1. -/
theorem C12_usage_status (argv0 : String) (opts : List (Char × String))
    (operands : List String) (w : World)
    (hopt : ∃ o ∈ opts, o.1 ≠ 's' ∧ o.1 ≠ 't' ∧ o.1 ≠ 'p' ∧ o.1 ≠ 'b') :
    (main argv0 opts operands w).status = EXIT_FAILURE ∧
    EXIT_FAILURE = 1 ∧
    (∀ (out err : List String) (msg : String),
      (die out err msg).status = (main argv0 opts operands w).status) ∧
    (main argv0 opts operands w).status ≠ 0 ∧
    (main argv0 opts operands w).stdout = [] ∧
    (main argv0 opts operands w).stderr = [w.getopt_err, usage argv0] ∧
    (∀ (a : String) (o : List (Char × String)) (ops : List String) (w2 : World),
      (main a o ops w2).status = 0 ∨ (main a o ops w2).status = 1) := by
  have hp := parseOpts_unrecognized opts {} hopt
  have hm : main argv0 opts operands w
      = { status := EXIT_FAILURE, stdout := [], stderr := [w.getopt_err, usage argv0] } := by
    unfold main
    simp only [hp, List.nil_append]
    rfl
  rw [hm]
  refine ⟨rfl, rfl, fun _ _ _ => rfl, ?_, rfl, rfl, main_status_cases⟩
  show EXIT_FAILURE ≠ 0
  decide

theorem C12_usage_status_witness :
    (∃ o ∈ [('s', "long"), ('?', "")], o.1 ≠ 's' ∧ o.1 ≠ 't' ∧ o.1 ≠ 'p' ∧ o.1 ≠ 'b') ∧
    (main "blob2c" [('s', "long"), ('?', "")] ["f"] (World.ofFile [1])).status = EXIT_FAILURE ∧
    EXIT_FAILURE = 1 ∧
    (main "blob2c" [('s', "long"), ('?', "")] ["f"] (World.ofFile [1])).stderr
      = ["blob2c: invalid option -- 'x'\n",
         "Usage: blob2c [-t type] [-s sizetype] [-p prefix] [-b basename] filename\n"] :=
  ⟨⟨('?', ""), by decide, by decide⟩,
   (C12_usage_status "blob2c" [('s', "long"), ('?', "")] ["f"] (World.ofFile [1])
      ⟨('?', ""), by decide, by decide⟩).1,
   (C12_usage_status "blob2c" [('s', "long"), ('?', "")] ["f"] (World.ofFile [1])
      ⟨('?', ""), by decide, by decide⟩).2.1,
   (C12_usage_status "blob2c" [('s', "long"), ('?', "")] ["f"] (World.ofFile [1])
      ⟨('?', ""), by decide, by decide⟩).2.2.2.2.2.1.trans (by decide)⟩

/-- C13: non-interference of the text options. Two runs on the same bytes, with any two
option lists and file names (and any indeterminate memory), write the same array body
lines and the same decimal size literal; the outputs differ at most in the prefix text
and in the type, size type and identifier inside the two declaration lines, and the
size literal does not depend on the size type string. -/
theorem C13_options_do_not_interfere (argv1 argv2 : String)
    (opts1 opts2 : List (Char × String)) (c1 c2 : Config) (f1 f2 : String)
    (rest1 rest2 : List String) (w1 w2 : World) (b : List Nat)
    (hc1 : parseOpts opts1 {} = some c1) (hc2 : parseOpts opts2 {} = some c2)
    (hw1 : w1.Reads b) (hw2 : w2.Reads b)
    (hn1 : c1.basename = none → w1.malloc_basename = true)
    (hn2 : c2.basename = none → w2.malloc_basename = true) :
    ∃ (body : List String) (size : String),
      (main argv1 opts1 (f1 :: rest1) w1).stdout
        = [c1.prefix_ ++ "\n", c1.type ++ " " ++ identifier c1 f1 ++ "_data[] = \x7b\n"]
          ++ body
          ++ ["\x7d;\n\n",
              "const " ++ c1.sizetype ++ " " ++ identifier c1 f1 ++ "_size = " ++ size ++ ";\n"] ∧
      (main argv2 opts2 (f2 :: rest2) w2).stdout
        = [c2.prefix_ ++ "\n", c2.type ++ " " ++ identifier c2 f2 ++ "_data[] = \x7b\n"]
          ++ body
          ++ ["\x7d;\n\n",
              "const " ++ c2.sizetype ++ " " ++ identifier c2 f2 ++ "_size = " ++ size ++ ";\n"] ∧
      (main argv1 opts1 (f1 :: rest1) w1).body = body ∧
      (main argv2 opts2 (f2 :: rest2) w2).body = body ∧
      size = String.mk (Nat.toDigits 10 b.length) ∧
      (main argv1 opts1 (f1 :: rest1) w1).status = (main argv2 opts2 (f2 :: rest2) w2).status := by
  have h1 := main_success argv1 opts1 c1 f1 rest1 w1 b hc1 hw1 hn1
  have h2 := main_success argv2 opts2 c2 f2 rest2 w2 b hc2 hw2 hn2
  refine ⟨bodyLines b, String.mk (Nat.toDigits 10 b.length), ?_, ?_, ?_, ?_, rfl, ?_⟩
  · rw [h1]; rfl
  · rw [h2]; rfl
  · exact main_body argv1 opts1 c1 f1 rest1 w1 b hc1 hw1 hn1
  · exact main_body argv2 opts2 c2 f2 rest2 w2 b hc2 hw2 hn2
  · rw [h1, h2]

theorem C13_options_do_not_interfere_witness :
    (World.ofFile [1, 2]).Reads [1, 2] ∧
    (main "blob2c" [] ["a"] (World.ofFile [1, 2])).body
      = (main "blob2c" [('t', "uint8_t"), ('s', "int"), ('p', ""), ('b', "x")] ["b"]
          (World.ofFile [1, 2])).body :=
  ⟨⟨rfl, by decide, rfl, by decide, rfl⟩,
   (C13_options_do_not_interfere "blob2c" "blob2c" []
      [('t', "uint8_t"), ('s', "int"), ('p', ""), ('b', "x")] {}
      { basename := some "x", type := "uint8_t", sizetype := "int", prefix_ := "" }
      "a" "b" [] [] (World.ofFile [1, 2]) (World.ofFile [1, 2]) [1, 2] rfl rfl
      ⟨rfl, by decide, rfl, by decide, rfl⟩ ⟨rfl, by decide, rfl, by decide, rfl⟩
      (fun _ => rfl) (fun h => by simp at h)).elim
    (fun _ h => h.elim (fun _ h => h.2.2.1.trans h.2.2.2.1.symm))⟩

/-- C14: the formatting loop of `main` terminates for every buffer size `N`. An
iteration entered with `left` other than 0 has `1 <= line_len <= 8` and
`line_len <= left`, makes `left` strictly smaller and keeps `pos + left`; run on a
buffer of `N` bytes from `left = N`, `pos = 0`, the loop is `ceil(N/8)` executions of
its body, `pos + left = N` holds before and after each of them, and it ends with
`left = 0` and `pos = N`; iteration `j` formats the window of the bytes that starts at
offset `8 * j`, and the windows, in order, make up the buffer. -/
theorem C14_loop_terminates (buf : List Nat) (lb : List Char) (out : List String)
    (hlb : lb.length = 49) :
    (∀ s : LoopState, s.left ≠ 0 →
      1 ≤ line_len_of s.left ∧ line_len_of s.left ≤ 8 ∧ line_len_of s.left ≤ s.left ∧
      (loopBody buf s).left = s.left - line_len_of s.left ∧
      (loopBody buf s).left < s.left ∧
      (loopBody buf s).pos = s.pos + line_len_of s.left ∧
      (loopBody buf s).pos + (loopBody buf s).left = s.pos + s.left) ∧
    (∀ s : LoopState,
      whileLoop buf s = if s.left ≠ 0 then whileLoop buf (loopBody buf s) else s) ∧
    whileLoop buf { left := buf.length, pos := 0, line_buf := lb, out := out }
      = Nat.iterate (loopBody buf) ((buf.length + 7) / 8)
          { left := buf.length, pos := 0, line_buf := lb, out := out } ∧
    (∀ j : Nat, j < (buf.length + 7) / 8 →
      (Nat.iterate (loopBody buf) j
        { left := buf.length, pos := 0, line_buf := lb, out := out }).left ≠ 0) ∧
    (∀ j : Nat,
      (Nat.iterate (loopBody buf) j
        { left := buf.length, pos := 0, line_buf := lb, out := out }).pos
      + (Nat.iterate (loopBody buf) j
        { left := buf.length, pos := 0, line_buf := lb, out := out }).left = buf.length) ∧
    (whileLoop buf { left := buf.length, pos := 0, line_buf := lb, out := out }).left = 0 ∧
    (whileLoop buf { left := buf.length, pos := 0, line_buf := lb, out := out }).pos
      = buf.length ∧
    (∀ j : Nat, j < (buf.length + 7) / 8 →
      (Nat.iterate (loopBody buf) j
        { left := buf.length, pos := 0, line_buf := lb, out := out }).pos = 8 * j ∧
      (Nat.iterate (loopBody buf) (j + 1)
        { left := buf.length, pos := 0, line_buf := lb, out := out }).out
        = (Nat.iterate (loopBody buf) j
            { left := buf.length, pos := 0, line_buf := lb, out := out }).out
          ++ [renderLine ((buf.drop (8 * j)).take 8)]) ∧
    ((List.range ((buf.length + 7) / 8)).map (fun j => (buf.drop (8 * j)).take 8)).flatten
      = buf := by
  have hst := iterate_state buf lb out hlb
  have hspec := whileLoop_spec buf buf.length
    { left := buf.length, pos := 0, line_buf := lb, out := out } (Nat.le_refl _) hlb (by simp)
  refine ⟨?_, whileLoop_unfold buf, ?_, ?_, ?_, hspec.2.1, hspec.2.2, ?_,
    windows_flatten buf.length buf (Nat.le_refl _)⟩
  · intro s hs
    have hl := line_len_of_eq s.left
    have h1 := loopBody_left buf s
    have h2 := loopBody_pos buf s
    refine ⟨by omega, by omega, by omega, h1, by omega, h2, by omega⟩
  · exact whileLoop_iterate buf buf.length _ (by simp only; omega)
  · intro j hj
    rw [(hst j).1]
    omega
  · intro j
    rw [(hst j).1, (hst j).2.1]
    omega
  · intro j hj
    obtain ⟨h1, h2, h3⟩ := hst j
    have hpos : (Nat.iterate (loopBody buf) j
        { left := buf.length, pos := 0, line_buf := lb, out := out }).pos = 8 * j := by
      rw [h2]; omega
    refine ⟨hpos, ?_⟩
    rw [Function.iterate_succ_apply', (loopBody_line buf _ h3 (by omega)).2, hpos, h1,
      line_len_of_eq]
    congr 3
    rcases Nat.lt_or_ge (buf.length - 8 * j) 8 with h8 | h8
    · rw [List.take_of_length_le (by simp only [List.length_drop]; omega),
        List.take_of_length_le (by simp only [List.length_drop]; omega)]
    · rw [Nat.min_eq_right h8]

theorem C14_loop_terminates_witness :
    (List.replicate 49 'Z').length = 49 ∧
    (whileLoop [1, 2, 3, 4, 5, 6, 7, 8, 9]
      { left := 9, pos := 0, line_buf := List.replicate 49 'Z', out := [] }).left = 0 ∧
    (whileLoop [1, 2, 3, 4, 5, 6, 7, 8, 9]
      { left := 9, pos := 0, line_buf := List.replicate 49 'Z', out := [] }).pos = 9 :=
  ⟨by decide,
   (C14_loop_terminates [1, 2, 3, 4, 5, 6, 7, 8, 9] (List.replicate 49 'Z') []
      (by decide)).2.2.2.2.2.1,
   (C14_loop_terminates [1, 2, 3, 4, 5, 6, 7, 8, 9] (List.replicate 49 'Z') []
      (by decide)).2.2.2.2.2.2.1⟩

/-- C15: every array access of the formatting loop is in bounds. Run on a buffer of `N`
bytes, the loop with all accesses checked never fails and gives the result of the loop
of `main`; in iteration `j` the reads are at `pos + i < N` for `i < line_len`; both
indices into `_hex_chars`, `byte >> 4` and `byte & 0x0F` of the unsigned 8-bit byte,
are below 16, the size of the table; the seven characters stored at offset `i * 6`
for `i < line_len <= 8` end at offset 48 at most, inside the 49 characters of
`line_buf`; and the `line_len * 6` characters printed are those stored in the same
iteration, whatever `line_buf` held before. -/
theorem C15_accesses_in_bounds (buf : List Nat) (lb : List Char) (out : List String)
    (hlb : lb.length = 49) :
    whileLoopChecked buf { left := buf.length, pos := 0, line_buf := lb, out := out }
      = some (whileLoop buf { left := buf.length, pos := 0, line_buf := lb, out := out }) ∧
    (∀ j i : Nat, j < (buf.length + 7) / 8 →
      i < line_len_of (Nat.iterate (loopBody buf) j
        { left := buf.length, pos := 0, line_buf := lb, out := out }).left →
      (Nat.iterate (loopBody buf) j
        { left := buf.length, pos := 0, line_buf := lb, out := out }).pos + i < buf.length) ∧
    _hex_chars.length = 16 ∧
    (∀ v : Nat, (v % 256) >>> 4 < 16 ∧ (v % 256) &&& 0x0F < 16) ∧
    (LINE_LEN * PER_BYTE + 1 = 49 ∧
      ∀ left i : Nat, i < line_len_of left →
        line_len_of left ≤ LINE_LEN ∧ i * PER_BYTE + 6 ≤ 48 ∧
        i * PER_BYTE + 7 ≤ LINE_LEN * PER_BYTE + 1 ∧
        line_len_of left * PER_BYTE ≤ 48) ∧
    (∀ (n pos : Nat) (lb1 lb2 : List Char), n ≤ 8 → pos + n ≤ buf.length →
      lb1.length = 49 → lb2.length = 49 →
      (forLoop buf n 0 pos lb1).2.take (n * PER_BYTE)
        = (((buf.drop pos).take n).map hexLit).flatten ∧
      fprintf_line (n * PER_BYTE) (forLoop buf n 0 pos lb1).2
        = fprintf_line (n * PER_BYTE) (forLoop buf n 0 pos lb2).2) := by
  have hst := iterate_state buf lb out hlb
  refine ⟨?_, ?_, rfl, hex_index_lt, ⟨rfl, ?_⟩, ?_⟩
  · exact whileLoopChecked_eq buf buf.length _ (Nat.le_refl _) hlb (by simp)
  · intro j i hj hi
    rw [(hst j).1, line_len_of_eq] at hi
    rw [(hst j).2.1]
    omega
  · intro left i hi
    rw [line_len_of_eq] at hi
    rw [line_len_of_eq]
    simp only [LINE_LEN, PER_BYTE]
    omega
  · intro n pos lb1 lb2 hn hpos h1 h2
    have f1 := (forLoop_spec buf n n 0 pos lb1 (by omega) (by omega) hn h1 (by omega)).2.2
    have f2 := (forLoop_spec buf n n 0 pos lb2 (by omega) (by omega) hn h2 (by omega)).2.2
    simp only [Nat.zero_mul, List.take_zero, List.nil_append, Nat.sub_zero] at f1 f2
    have hp : n * PER_BYTE = n * 6 := rfl
    refine ⟨by rw [hp]; exact f1, ?_⟩
    rw [fprintf_line_eq n _ _ f1, fprintf_line_eq n _ _ f2]

theorem C15_accesses_in_bounds_witness :
    (List.replicate 49 NUL).length = 49 ∧
    whileLoopChecked [255, 0, 16, 1, 2, 3, 4, 5, 6, 7]
        { left := 10, pos := 0, line_buf := List.replicate 49 NUL, out := [] }
      = some (whileLoop [255, 0, 16, 1, 2, 3, 4, 5, 6, 7]
        { left := 10, pos := 0, line_buf := List.replicate 49 NUL, out := [] }) :=
  ⟨by decide,
   (C15_accesses_in_bounds [255, 0, 16, 1, 2, 3, 4, 5, 6, 7] (List.replicate 49 NUL) []
      (by decide)).1⟩

/-- C16: `strchrreplace` is a total function: for a string `s` without NUL and
characters `find` and `replace` other than NUL, equal or not, it returns a string of
the same length, still without NUL, in which the positions that held `find` hold
`replace` and every other position holds what it held; applied a second time with the
same arguments it changes nothing. -/
theorem C16_strchrreplace (s : String) (find replace : Char)
    (hs : NUL ∉ s.data) (_hf : find ≠ NUL) (hr : replace ≠ NUL) :
    (strchrreplace s find replace).length = s.length ∧
    NUL ∉ (strchrreplace s find replace).data ∧
    (∀ i : Nat, (strchrreplace s find replace).data[i]?
      = (s.data[i]?).map (fun ch => if ch = find then replace else ch)) ∧
    (∀ (i : Nat) (ch : Char), s.data[i]? = some ch → ch = find →
      (strchrreplace s find replace).data[i]? = some replace) ∧
    (∀ (i : Nat) (ch : Char), s.data[i]? = some ch → ch ≠ find →
      (strchrreplace s find replace).data[i]? = some ch) ∧
    strchrreplace (strchrreplace s find replace) find replace
      = strchrreplace s find replace ∧
    strchrreplace s find find = s := by
  have hpt : ∀ i : Nat, (strchrreplace s find replace).data[i]?
      = (s.data[i]?).map (fun ch => if ch = find then replace else ch) := by
    intro i
    rw [strchrreplace_eq]
    simp only [List.getElem?_map]
    rfl
  refine ⟨?_, ?_, hpt, ?_, ?_, ?_, ?_⟩
  · rw [strchrreplace_eq]
    simp only [String.length, List.length_map]
  · rw [strchrreplace_eq]
    simp only [List.mem_map, not_exists, not_and]
    intro ch hch
    unfold replaceChar
    split
    · exact hr
    · intro h
      exact hs (h ▸ hch)
  · intro i ch hi hch
    rw [hpt, hi]
    simp [hch]
  · intro i ch hi hch
    rw [hpt, hi]
    simp [hch]
  · rw [strchrreplace_eq, strchrreplace_eq]
    simp only [List.map_map]
    congr 1
    apply List.map_congr_left
    intro ch _
    simp only [Function.comp, replaceChar]
    split_ifs <;> rfl
  · rw [strchrreplace_eq]
    have : s.data.map (replaceChar find find) = s.data := by
      conv_rhs => rw [← List.map_id s.data]
      apply List.map_congr_left
      intro ch _
      simp only [replaceChar, id]
      split_ifs with h
      · exact h.symm
      · rfl
    rw [this]

theorem C16_strchrreplace_witness :
    NUL ∉ "a.b/c.d".data ∧ '.' ≠ NUL ∧ '_' ≠ NUL ∧
    (strchrreplace "a.b/c.d" '.' '_').length = "a.b/c.d".length ∧
    (strchrreplace "a.b/c.d" '.' '_').data[1]? = some '_' ∧
    (strchrreplace "a.b/c.d" '.' '_').data[3]? = some '/' :=
  ⟨by decide, by decide, by decide,
   (C16_strchrreplace "a.b/c.d" '.' '_' (by decide) (by decide) (by decide)).1,
   (C16_strchrreplace "a.b/c.d" '.' '_' (by decide) (by decide) (by decide)).2.2.2.1
      1 '.' (by decide) rfl,
   (C16_strchrreplace "a.b/c.d" '.' '_' (by decide) (by decide) (by decide)).2.2.2.2.1
      3 '/' (by decide) (by decide)⟩

/-- C17: the identifier derivation is not injective: the distinct paths `a/b`, `a.b` and
`a_b` all give `_blob_a_b`, so runs on `a/b` and on `a.b` declare the same `_data` and
`_size` symbols; and for every path the derived identifier starts with `_blob_` and
contains neither `/` nor `.`. -/
theorem C17_derivation_not_injective (argv0 : String) (opts : List (Char × String))
    (c : Config) (rest : List String) (w : World) (b : List Nat)
    (hc : parseOpts opts {} = some c) (hnb : c.basename = none) (hw : w.Reads b)
    (hm : w.malloc_basename = true) :
    deriveBasename "a/b" = "_blob_a_b" ∧ deriveBasename "a.b" = "_blob_a_b" ∧
    deriveBasename "a_b" = "_blob_a_b" ∧
    "a/b" ≠ "a.b" ∧ "a/b" ≠ "a_b" ∧ "a.b" ≠ "a_b" ∧
    ¬ Function.Injective deriveBasename ∧
    main argv0 opts ("a/b" :: rest) w = main argv0 opts ("a.b" :: rest) w ∧
    (main argv0 opts ("a/b" :: rest) w).stdout[1]?
      = some (c.type ++ " " ++ "_blob_a_b" ++ "_data[] = \x7b\n") ∧
    (main argv0 opts ("a/b" :: rest) w).stdout.getLast?
      = some ("const " ++ c.sizetype ++ " " ++ "_blob_a_b" ++ "_size = "
          ++ String.mk (Nat.toDigits 10 b.length) ++ ";\n") ∧
    (∀ p : String, List.IsPrefix "_blob_".data (deriveBasename p).data ∧
      '/' ∉ (deriveBasename p).data ∧ '.' ∉ (deriveBasename p).data) := by
  have e1 : deriveBasename "a/b" = "_blob_a_b" := by rw [deriveBasename_eq]; decide
  have e2 : deriveBasename "a.b" = "_blob_a_b" := by rw [deriveBasename_eq]; decide
  have e3 : deriveBasename "a_b" = "_blob_a_b" := by rw [deriveBasename_eq]; decide
  have hid : ∀ p, identifier c p = deriveBasename p := by intro p; simp [identifier, hnb]
  have r1 := main_success argv0 opts c "a/b" rest w b hc hw (fun _ => hm)
  have r2 := main_success argv0 opts c "a.b" rest w b hc hw (fun _ => hm)
  rw [hid, e1] at r1
  rw [hid, e2] at r2
  refine ⟨e1, e2, e3, by decide, by decide, by decide, ?_, by rw [r1, r2], ?_, ?_, ?_⟩
  · intro hinj
    have := hinj (e1.trans e2.symm)
    exact absurd this (by decide)
  · rw [r1]; simp [declLine]
  · rw [r1]; exact getLast?_frame _ _ _ _ _
  · intro p
    rw [deriveBasename_eq]
    refine ⟨⟨(p.data.map identChar), by simp [String.data_append, BASENAME_PREFIX]⟩, ?_, ?_⟩
    · simp only [String.data_append, List.mem_append, List.mem_map, not_or, not_exists,
        not_and]
      refine ⟨by decide, ?_⟩
      intro ch _
      unfold identChar
      split_ifs with h
      · decide
      · intro h2
        exact h (Or.inl h2)
    · simp only [String.data_append, List.mem_append, List.mem_map, not_or, not_exists,
        not_and]
      refine ⟨by decide, ?_⟩
      intro ch _
      unfold identChar
      split_ifs with h
      · decide
      · intro h2
        exact h (Or.inr h2)

theorem C17_derivation_not_injective_witness :
    parseOpts [] {} = some {} ∧ (World.ofFile [5]).Reads [5] ∧
    main "blob2c" [] ["a/b"] (World.ofFile [5]) = main "blob2c" [] ["a.b"] (World.ofFile [5]) ∧
    (main "blob2c" [] ["a/b"] (World.ofFile [5])).stdout[1]?
      = some ("const char" ++ " " ++ "_blob_a_b" ++ "_data[] = \x7b\n") :=
  ⟨rfl, ⟨rfl, by decide, rfl, by decide, rfl⟩,
   (C17_derivation_not_injective "blob2c" [] {} [] (World.ofFile [5]) [5] rfl rfl
      ⟨rfl, by decide, rfl, by decide, rfl⟩ rfl).2.2.2.2.2.2.2.1,
   (C17_derivation_not_injective "blob2c" [] {} [] (World.ofFile [5]) [5] rfl rfl
      ⟨rfl, by decide, rfl, by decide, rfl⟩ rfl).2.2.2.2.2.2.2.2.1⟩

end Blob2c
